import Mathlib

/-!
Verification development for the webserv configuration front-end
(tokenizer `src/config/tokenizer/Tokenizer.cpp`, parser
`src/config/parser/ConfigParser.cpp`, directive handler tables
`src/config/parser/directive_handler_table.cpp`, numeric helpers
`src/utils/stringUtils.cpp`, and the `Config`/`Server`/`Location`
entities of `src/core`).

The C++ source is embedded shallowly:

* the input byte string is a `List Char`, each `Char` standing for one
  byte (all inputs of interest are byte strings; classification
  functions are the C-locale ASCII ones, which return false for any
  codepoint ≥ 128, exactly as the C functions do for non-ASCII bytes);
* the tokenizer's mutable cursor (`_pos`, `_line`, `_column`) is passed
  explicitly; loops that the C++ writes with `while` are structural
  recursions over the remaining input, or take an explicit fuel
  argument when they advance through helper calls (the fuel passed by
  the top-level entry points always suffices, since every iteration
  consumes at least one character or token; running out of fuel yields
  a distinguished error that no theorem below ever treats as a
  successful outcome);
* C++ exceptions become `Except` values.  A thrown error carries the
  `formatError` message.  The secondary diagnostic payload (the
  `extractLine` source snippet / `getContextWindow` token window) is
  not modelled: no property below mentions it, and it does not affect
  control flow;
* `std::size_t` arithmetic is `Nat` arithmetic reduced `% 2^64`
  where the C++ can overflow, and `int` values are `Int` with the
  explicit `[-2^31, 2^31)` range checks that `std::from_chars`
  performs.
-/

namespace Webserv

/-! ## C-locale character classification (`<cctype>` in the "C" locale) -/

def isDigitC (c : Char) : Bool := '0' ≤ c && c ≤ '9'

def isAlphaC (c : Char) : Bool := ('a' ≤ c && c ≤ 'z') || ('A' ≤ c && c ≤ 'Z')

def isAlnumC (c : Char) : Bool := isAlphaC c || isDigitC c

/-- C-locale `isspace`: space, \t, \n, \v, \f, \r. -/
def isSpaceC (c : Char) : Bool :=
  c = ' ' || c = '\t' || c = '\n' || c.toNat = 11 || c.toNat = 12 || c.toNat = 13

/-- C-locale `tolower` (ASCII only). -/
def toLowerC (c : Char) : Char :=
  if 'A' ≤ c && c ≤ 'Z' then Char.ofNat (c.toNat + 32) else c

/-- The repository's `toLower` from `stringUtils.cpp`. -/
def strLower (s : String) : String := String.mk (s.data.map toLowerC)

/-- The repository's `formatError` from `errorUtils.cpp`.  Lines and
columns are `Int` because `parseInt`'s default context passes `-1`. -/
def formatError (msg : String) (line column : Int) : String :=
  "Line " ++ toString line ++ ", column " ++ toString column ++ ": " ++ msg

/-! ## Token model (`token.hpp` / `token.cpp`) -/

inductive TokenType where
  | IDENTIFIER | NUMBER | STRING
  | LBRACE | RBRACE | SEMICOLON | END_OF_FILE
  | KEYWORD_SERVER | KEYWORD_LOCATION | KEYWORD_LISTEN | KEYWORD_HOST
  | KEYWORD_ROOT | KEYWORD_INDEX | KEYWORD_AUTOINDEX | KEYWORD_METHODS
  | KEYWORD_UPLOAD_STORE | KEYWORD_RETURN | KEYWORD_ERROR_PAGE
  | KEYWORD_CLIENT_MAX_BODY_SIZE | KEYWORD_CGI_EXTENSION
  deriving DecidableEq, Repr

structure Token where
  type : TokenType
  value : String
  line : Nat
  column : Nat
  offset : Nat
  deriving DecidableEq, Repr

/-- The `debugTokenType` rendering from `token.cpp` (used in parser
error messages). -/
def debugTokenType : TokenType → String
  | .IDENTIFIER => "IDENTIFIER"
  | .NUMBER => "NUMBER"
  | .STRING => "STRING"
  | .LBRACE => "LBRACE"
  | .RBRACE => "RBRACE"
  | .SEMICOLON => "SEMICOLON"
  | .END_OF_FILE => "END_OF_FILE"
  | .KEYWORD_SERVER => "KEYWORD_SERVER"
  | .KEYWORD_LOCATION => "KEYWORD_LOCATION"
  | .KEYWORD_LISTEN => "KEYWORD_LISTEN"
  | .KEYWORD_HOST => "KEYWORD_HOST"
  | .KEYWORD_ROOT => "KEYWORD_ROOT"
  | .KEYWORD_INDEX => "KEYWORD_INDEX"
  | .KEYWORD_AUTOINDEX => "KEYWORD_AUTOINDEX"
  | .KEYWORD_METHODS => "KEYWORD_METHODS"
  | .KEYWORD_UPLOAD_STORE => "KEYWORD_UPLOAD_STORE"
  | .KEYWORD_RETURN => "KEYWORD_RETURN"
  | .KEYWORD_ERROR_PAGE => "KEYWORD_ERROR_PAGE"
  | .KEYWORD_CLIENT_MAX_BODY_SIZE => "KEYWORD_CLIENT_MAX_BODY_SIZE"
  | .KEYWORD_CGI_EXTENSION => "KEYWORD_CGI_EXTENSION"

/-! ## Tokenizer (`Tokenizer.cpp`) -/

/-- `Tokenizer::isIdentifierStart`. -/
def isIdentifierStart (c : Char) : Bool :=
  isAlphaC c || c = '_' || c = '/' || c = '.' || c = '-' || c = ':'

/-- `Tokenizer::isIdentifierChar`. -/
def isIdentifierChar (c : Char) : Bool :=
  isAlnumC c || c = '_' || c = '/' || c = '.' || c = '-' || c = ':'

/-- `Tokenizer::makeToken`: the starting column is estimated as
`_column - value.length()` clamped to at least 1, the offset as
`_pos - value.size()` (`Nat` subtraction; the C++ never underflows on
the reachable states). -/
def makeToken (ty : TokenType) (value : String) (line col pos : Nat) : Token :=
  { type := ty, value := value, line := line
    column := Nat.max 1 (col - value.length)
    offset := pos - value.length }

/-- `Tokenizer::skipUtf8BOM`: drop a single leading EF BB BF. -/
def bomChars : List Char := [Char.ofNat 0xEF, Char.ofNat 0xBB, Char.ofNat 0xBF]

def skipUtf8BOM (input : List Char) : List Char × Nat :=
  if input.take 3 = bomChars then (input.drop 3, 3) else (input, 0)

/-- Generic scan-while loop with the faithful `advance` line/column
bookkeeping (`Tokenizer::advance`): consuming `'\n'` bumps the line and
resets the column to 1, any other character bumps the column.  Returns
the consumed characters, the rest, and the updated cursor. -/
def scanWhile (p : Char → Bool) :
    List Char → Nat → Nat → Nat → List Char × List Char × Nat × Nat × Nat
  | [], line, col, pos => ([], [], line, col, pos)
  | ch :: rest, line, col, pos =>
    if p ch then
      let r := scanWhile p rest (if ch = '\n' then line + 1 else line)
        (if ch = '\n' then 1 else col + 1) (pos + 1)
      (ch :: r.1, r.2)
    else ([], ch :: rest, line, col, pos)

/-- `Tokenizer::validateIdentifier` on the scanned word (the
`_pos < start` internal sanity branch cannot be expressed here: the
scan always returns `start ≤ _pos`). -/
def validateIdentifier (word : List Char) (line col : Nat) : Except String Unit :=
  if word.isEmpty then
    .error (formatError "Zero-length identifier" line col)
  else if word.contains '$' then
    .error (formatError
      "Found '$' in unquoted token; please wrap any text containing '$' in quotes" line col)
  else if word.any (fun ch => ch.toNat < 0x20 || ch.toNat = 0x7F) then
    .error (formatError "Identifier contains non-printable/control character" line col)
  else
    .ok ()

/-- `Tokenizer::resolveKeywordType`: case-insensitive keyword lookup. -/
def resolveKeywordType (word : String) : TokenType :=
  match strLower word with
  | "server" => .KEYWORD_SERVER
  | "location" => .KEYWORD_LOCATION
  | "listen" => .KEYWORD_LISTEN
  | "host" => .KEYWORD_HOST
  | "root" => .KEYWORD_ROOT
  | "index" => .KEYWORD_INDEX
  | "autoindex" => .KEYWORD_AUTOINDEX
  | "methods" => .KEYWORD_METHODS
  | "upload_store" => .KEYWORD_UPLOAD_STORE
  | "return" => .KEYWORD_RETURN
  | "error_page" => .KEYWORD_ERROR_PAGE
  | "client_max_body_size" => .KEYWORD_CLIENT_MAX_BODY_SIZE
  | "cgi_extension" => .KEYWORD_CGI_EXTENSION
  | _ => .IDENTIFIER

/-- Result of a single token scan: the token, the remaining input and
the updated cursor. -/
abbrev ScanResult := Token × List Char × Nat × Nat × Nat

/-- `Tokenizer::parseIdentifierOrKeyword`. -/
def parseIdentifierOrKeyword (l : List Char) (line col pos : Nat) :
    Except String ScanResult :=
  match scanWhile isIdentifierChar l line col pos with
  | (word, rest, line1, col1, pos1) =>
    match validateIdentifier word line1 col1 with
    | .error e => .error e
    | .ok _ =>
      .ok (makeToken (resolveKeywordType (String.mk word)) (String.mk word) line1 col1 pos1,
        rest, line1, col1, pos1)

/-- Dot counting of `Tokenizer::looksLikeIpAddress`: scan the
digit-or-dot prefix, counting dots. -/
def dotCount : List Char → Nat
  | [] => 0
  | c :: r => if isDigitC c then dotCount r else if c = '.' then dotCount r + 1 else 0

def looksLikeIpAddress (l : List Char) : Bool := 2 ≤ dotCount l

/-- `Tokenizer::scanOptionalUnitSuffix` after the digits have been
scanned: accept a single letter, reject two consecutive letters. -/
def scanUnit (l : List Char) (line col pos : Nat) :
    Except String (List Char × List Char × Nat × Nat × Nat) :=
  match l with
  | [] => .ok ([], [], line, col, pos)
  | c :: rest =>
    if isAlphaC c then
      match rest with
      | c2 :: _ =>
        if isAlphaC c2 then
          .error (formatError
            "Invalid number suffix: expected single letter like 'k', 'm', or 'g'"
            line (col + 1))
        else .ok ([c], rest, line, col + 1, pos + 1)
      | [] => .ok ([c], [], line, col + 1, pos + 1)
    else .ok ([], c :: rest, line, col, pos)

/-- `Tokenizer::parseNumberOrUnit`. -/
def parseNumberOrUnit (l : List Char) (line col pos : Nat) :
    Except String ScanResult :=
  match scanWhile isDigitC l line col pos with
  | (ds, rest1, line1, col1, pos1) =>
    match scanUnit rest1 line1 col1 pos1 with
    | .error e => .error e
    | .ok (suf, rest2, line2, col2, pos2) =>
      .ok (makeToken .NUMBER (String.mk (ds ++ suf)) line2 col2 pos2,
        rest2, line2, col2, pos2)

/-- Escape decoding table of `Tokenizer::parseEscapeSequence`. -/
def escDecode : Char → Option Char
  | 'n' => some '\n'
  | 't' => some '\t'
  | 'r' => some '\r'
  | '\\' => some '\\'
  | '"' => some '"'
  | '\'' => some '\''
  | _ => none

/-- The scanning loop of `Tokenizer::parseStringLiteral`, entered after
the opening quote `q` has been consumed.  `content` is the decoded
content so far; the 64 KiB limit is checked after each append. -/
def stringLitLoop (q : Char) :
    List Char → List Char → Nat → Nat → Nat → Except String ScanResult
  | [], _content, line, col, _pos =>
    .error (formatError "Unterminated string literal (end of input)" line col)
  | ch :: rest, content, line, col, pos =>
    if ch = '\n' then
      .error (formatError "Unterminated string literal (unexpected newline)" line col)
    else if ch = q then
      .ok (makeToken .STRING (String.mk content) line (col + 1) (pos + 1),
        rest, line, col + 1, pos + 1)
    else if ch = '\\' then
      if q = '\'' then
        .error (formatError "Escapes not allowed in single-quoted strings" line (col + 1))
      else
        match rest with
        | [] =>
          .error (formatError "Unterminated string literal (trailing backslash)" line (col + 1))
        | e :: rest2 =>
          let line2 := if e = '\n' then line + 1 else line
          let col2 := if e = '\n' then 1 else col + 2
          match escDecode e with
          | none =>
            .error (formatError ("Invalid escape sequence \\" ++ String.mk [e] ++
              " in " ++ String.mk [q] ++ "-quoted string") line2 col2)
          | some d =>
            if 64 * 1024 < (content ++ [d]).length then
              .error (formatError "String literal exceeds 64 KiB limit" line2 col2)
            else
              stringLitLoop q rest2 (content ++ [d]) line2 col2 (pos + 2)
    else
      if 64 * 1024 < (content ++ [ch]).length then
        .error (formatError "String literal exceeds 64 KiB limit" line (col + 1))
      else
        stringLitLoop q rest (content ++ [ch]) line (col + 1) (pos + 1)

def lbraceStr : String := String.mk [Char.ofNat 123]
def rbraceStr : String := String.mk [Char.ofNat 125]

/-- `Tokenizer::dispatchToken`.  The empty-input case mirrors the C++
reading of the terminating NUL through `peek()` (it falls through to
the "Unexpected character" branch); `tokenize` never calls it there. -/
def dispatchToken : List Char → Nat → Nat → Nat → Except String ScanResult
  | [], line, col, _pos =>
    .error (formatError ("Unexpected character '" ++ String.mk [Char.ofNat 0] ++ "'") line col)
  | c :: rest, line, col, pos =>
    if isDigitC c then
      -- peekNext: the byte after c, or NUL at end of input
      let next := rest.headD (Char.ofNat 0)
      if looksLikeIpAddress (c :: rest) || (!isDigitC next && isIdentifierChar next) then
        parseIdentifierOrKeyword (c :: rest) line col pos
      else
        parseNumberOrUnit (c :: rest) line col pos
    else if isIdentifierStart c then
      parseIdentifierOrKeyword (c :: rest) line col pos
    else if c = '"' || c = '\'' then
      stringLitLoop c rest [] line (col + 1) (pos + 1)
    else if c = Char.ofNat 123 then
      .ok (makeToken .LBRACE lbraceStr line (col + 1) (pos + 1), rest, line, col + 1, pos + 1)
    else if c = Char.ofNat 125 then
      .ok (makeToken .RBRACE rbraceStr line (col + 1) (pos + 1), rest, line, col + 1, pos + 1)
    else if c = ';' then
      .ok (makeToken .SEMICOLON ";" line (col + 1) (pos + 1), rest, line, col + 1, pos + 1)
    else
      .error (formatError ("Unexpected character '" ++ String.mk [c] ++ "'") line col)

/-- Consume to (but not including) the next newline
(`skipDoubleSlashComment` / `skipHashComment` tails). -/
def skipLineAux : List Char → Nat → Nat → List Char × Nat × Nat
  | [], col, pos => ([], col, pos)
  | c :: rest, col, pos =>
    if c = '\n' then (c :: rest, col, pos) else skipLineAux rest (col + 1) (pos + 1)

/-- `Tokenizer::skipMultiLineComment` after the opening `/*` has been
consumed. -/
def skipMultiLine : List Char → Nat → Nat → Nat →
    Except String (List Char × Nat × Nat × Nat)
  | [], line, col, _pos =>
    .error (formatError "Unterminated block comment" line col)
  | c :: rest, line, col, pos =>
    if c = '*' && rest.headD (Char.ofNat 0) = '/' then
      .ok (rest.tail, line, col + 2, pos + 2)
    else if c = '\n' then
      skipMultiLine rest (line + 1) 1 (pos + 1)
    else
      skipMultiLine rest line (col + 1) (pos + 1)

/-- Fuel-exhaustion marker (unreachable with the fuel the entry points
pass; kept distinct from every real diagnostic). -/
def fuelMsg : String := "INTERNAL: fuel exhausted"

/-- `Tokenizer::skipWhitespaceAndComments`. -/
def skipWhitespaceAndComments :
    Nat → List Char → Nat → Nat → Nat → Except String (List Char × Nat × Nat × Nat)
  | 0, _, _, _, _ => .error fuelMsg
  | fuel + 1, l, line, col, pos =>
    match l with
    | [] => .ok ([], line, col, pos)
    | c :: rest =>
      if c = '\r' then
        skipWhitespaceAndComments fuel rest line col (pos + 1)
      else if c = '\n' then
        skipWhitespaceAndComments fuel rest (line + 1) 1 (pos + 1)
      else if isSpaceC c then
        skipWhitespaceAndComments fuel rest line (col + 1) (pos + 1)
      else if c = '/' && rest.headD (Char.ofNat 0) = '/' then
        let r := skipLineAux rest.tail (col + 2) (pos + 2)
        skipWhitespaceAndComments fuel r.1 line r.2.1 r.2.2
      else if c = '#' then
        let r := skipLineAux rest (col + 1) (pos + 1)
        skipWhitespaceAndComments fuel r.1 line r.2.1 r.2.2
      else if c = '/' && rest.headD (Char.ofNat 0) = '*' then
        match skipMultiLine rest.tail line (col + 2) (pos + 2) with
        | .error e => .error e
        | .ok (r1, line1, col1, pos1) =>
          skipWhitespaceAndComments fuel r1 line1 col1 pos1
      else
        .ok (c :: rest, line, col, pos)

/-- Main loop of `Tokenizer::tokenize`. -/
def tokenizeLoop :
    Nat → List Char → Nat → Nat → Nat → List Token →
    Except String (List Token × Nat × Nat × Nat)
  | 0, _, _, _, _, _ => .error fuelMsg
  | fuel + 1, l, line, col, pos, acc =>
    match l with
    | [] => .ok (acc, line, col, pos)
    | _ =>
      match skipWhitespaceAndComments (l.length + 1) l line col pos with
      | .error e => .error e
      | .ok (l1, line1, col1, pos1) =>
        match l1 with
        | [] => .ok (acc, line1, col1, pos1)
        | _ =>
          match dispatchToken l1 line1 col1 pos1 with
          | .error e => .error e
          | .ok (tok, l2, line2, col2, pos2) =>
            tokenizeLoop fuel l2 line2 col2 pos2 (acc ++ [tok])

/-- `Tokenizer::tokenize`: skip the BOM, loop, then append the final
`END_OF_FILE` token at the final cursor state. -/
def tokenize (input : List Char) : Except String (List Token) :=
  let b := skipUtf8BOM input
  match tokenizeLoop (b.1.length + 1) b.1 1 1 b.2 [] with
  | .error e => .error e
  | .ok (toks, line, col, pos) =>
    .ok (toks ++ [makeToken .END_OF_FILE "" line col pos])

/-! ## Configuration entities (`core/Server.hpp`, `core/Location.hpp`)

`std::set<std::string>` / `std::map<int, std::string>` are embedded as
ordered duplicate-free association lists with sorted insertion.
`Location::addIndexFile` and `Location::addCgiExtension` are declared
in `core/Location.hpp` and called by the handler table, but their
definitions are not in the source tree. -/

/-- Byte-wise lexicographic comparison (the `std::set<std::string>` /
`std::string::operator<` order; `String <` itself does not reduce in the
kernel). -/
def charListLt : List Char → List Char → Bool
  | [], [] => false
  | [], _ :: _ => true
  | _ :: _, [] => false
  | x :: xs, y :: ys =>
    if x.toNat < y.toNat then true
    else if y.toNat < x.toNat then false
    else charListLt xs ys

def strLt (a b : String) : Bool := charListLt a.data b.data

/-- Sorted set insertion (`std::set::insert`). -/
def insertSet (m : String) : List String → List String
  | [] => [m]
  | x :: xs =>
    if strLt m x then m :: x :: xs else if m = x then x :: xs else x :: insertSet m xs

/-- Sorted map insert-or-assign (`std::map::operator[] =`). -/
def mapSet (k : Int) (v : String) : List (Int × String) → List (Int × String)
  | [] => [(k, v)]
  | (k1, v1) :: xs =>
    if k < k1 then (k, v) :: (k1, v1) :: xs
    else if k = k1 then (k, v) :: xs
    else (k1, v1) :: mapSet k v xs

/-- Location entity, most recent header revision (`core/Location.hpp`):
path, method set, root, index-file list, autoindex flag, redirect
target and code, upload directory, CGI extension list.  Defaults per
the constructor (`autoindex` false, `return_code` 0, everything else
empty).  Modelled from the spec: `addIndexFile` / `addCgiExtension`
(definitions absent from the source tree) append to the respective
ordered sequence. -/
structure Location where
  path : String := ""
  methods : List String := []
  root : String := ""
  indexFiles : List String := []
  autoindex : Bool := false
  redirect : String := ""
  returnCode : Int := 0
  uploadStore : String := ""
  cgiExtensions : List String := []
  deriving DecidableEq, Repr

/-- Server entity (`core/Server.hpp` / `Server.cpp` constructor):
port 80, host "0.0.0.0", client_max_body_size 1 MiB by default. -/
structure Server where
  port : Int := 80
  host : String := "0.0.0.0"
  serverNames : List String := []
  errorPages : List (Int × String) := []
  clientMaxBodySize : Nat := 1048576
  locations : List Location := []
  deriving DecidableEq, Repr

structure Config where
  servers : List Server := []
  deriving DecidableEq, Repr

/-! ## Numeric helpers (`stringUtils.cpp`)

`parseInt` / `parseByteSize` are always called through the one-argument
wrappers, whose context is field `"?"`, line `-1`, column `-1`, empty
snippet.  `std::from_chars` consumes an optional `-` (for `int`; never
`+`) and then a maximal digit run; it reports `result_out_of_range`
when the value does not fit the result type, and never throws — so all
`parseInt` failures surface as `std::invalid_argument`. -/

def natOfDigits (ds : List Char) : Nat :=
  ds.foldl (fun a c => a * 10 + (c.toNat - 48)) 0

/-- `parseInt(value)` (one-argument wrapper).  Fails — with the
`std::invalid_argument` message it throws — when conversion fails,
when trailing characters remain, when the value overflows `int`
(`from_chars` signals `result_out_of_range`, and the `ec != errc()`
test folds that into the same throw), or when the result is
negative. -/
def parseInt (value : String) : Except String Int :=
  let cs := value.data
  let neg := cs.headD (Char.ofNat 0) = '-'
  let body := if neg then cs.tail else cs
  let ds := body.takeWhile isDigitC
  let rem := body.dropWhile isDigitC
  let v : Int := if neg then -(natOfDigits ds : Int) else (natOfDigits ds : Int)
  if ds.isEmpty || !rem.isEmpty || v < -(2 ^ 31 : Int) || (2 ^ 31 : Int) - 1 < v || v < 0 then
    .error ("Line -1, column -1: Invalid number for '?': " ++ value ++ "\n  --> ")
  else
    .ok v

/-- `parseByteSize(value)` (one-argument wrapper).  The final character
may be a `k/m/g` multiplier (either case); the remaining digits are
parsed as `size_t`, and the multiplication is `size_t` arithmetic,
i.e. reduced mod `2^64`. -/
def parseByteSize (value : String) : Except String Nat :=
  let cs := value.data
  if cs.isEmpty then
    .error ("Line -1, column -1: Empty size for '?'\n  --> ")
  else
    let suffix := cs.getLast?.getD (Char.ofNat 0)
    let hasSuffix := suffix = 'k' || suffix = 'K' || suffix = 'm' || suffix = 'M' ||
      suffix = 'g' || suffix = 'G'
    let multiplier : Nat :=
      if suffix = 'k' || suffix = 'K' then 1024
      else if suffix = 'm' || suffix = 'M' then 1024 * 1024
      else if suffix = 'g' || suffix = 'G' then 1024 * 1024 * 1024
      else 1
    let numberPart := if hasSuffix then cs.dropLast else cs
    let ds := numberPart.takeWhile isDigitC
    let rem := numberPart.dropWhile isDigitC
    let n := natOfDigits ds
    if ds.isEmpty || !rem.isEmpty || 2 ^ 64 ≤ n then
      .error ("Line -1, column -1: Invalid size format for '?': " ++ value ++ "\n  --> ")
    else
      .ok (n * multiplier % 2 ^ 64)

/-! ## Directive handler tables (`directive_handler_table.cpp`) -/

/-- A handler failure: a `SyntaxError` thrown directly by the handler,
or a propagated `std::invalid_argument` / `std::out_of_range` whose
`what()` string the parser wraps (`ConfigParser.cpp`,
`parseDirective`). -/
inductive HandlerExc where
  | synH (msg : String)
  | invArg (what : String)
  | outRange (what : String)
  deriving DecidableEq, Repr

/-- `requireArgCount` failure message. -/
def exactArgMsg (name : String) (expected got : Nat) : String :=
  "Directive '" ++ name ++ "' takes exactly " ++ toString expected ++
    " argument(s), but got " ++ toString got

/-- `requireMinArgCount` failure message. -/
def minArgMsg (name : String) (min got : Nat) : String :=
  "Directive '" ++ name ++ "' requires at least " ++ toString min ++
    " argument(s), but got " ++ toString got

/-- The `error_page` handler's loop over the status codes
(`for i; i + 1 < v.size(); ++i`): parse each code, record `code → uri`. -/
def applyErrorPages (uri : String) : Server → List String → Except HandlerExc Server
  | s, [] => .ok s
  | s, c :: cs =>
    match parseInt c with
    | .error w => .error (.invArg w)
    | .ok code => applyErrorPages uri { s with errorPages := mapSet code uri s.errorPages } cs

/-- The server-level handler table (`directive::serverHandlers`).
`none` means the directive name has no entry.  In the `listen` handler
the `catch (std::out_of_range)` branch ("Port number out of integer
range") is carried over faithfully as dead code: `parseInt` only ever
throws `std::invalid_argument`, which the first catch turns into
"Invalid port number". -/
def applyServerDirective (name : String) (s : Server) (v : List String)
    (line col : Int) : Option (Except HandlerExc Server) :=
  if name = "listen" then some <|
    match v with
    | [arg] =>
      match parseInt arg with
      | .error _ =>
        .error (.synH (formatError ("Invalid port number: " ++ arg) line col))
      | .ok port =>
        if port < 0 || 65535 < port then
          .error (.synH (formatError ("Port number out of valid range (0-65535): " ++ arg)
            line col))
        else .ok { s with port := port }
    | _ => .error (.synH (formatError (exactArgMsg "listen" 1 v.length) line col))
  else if name = "host" then some <|
    match v with
    | [arg] => .ok { s with host := arg }
    | _ => .error (.synH (formatError (exactArgMsg "host" 1 v.length) line col))
  else if name = "server_name" then some <|
    if v.isEmpty then
      .error (.synH (formatError (minArgMsg "server_name" 1 v.length) line col))
    else .ok { s with serverNames := s.serverNames ++ v.map strLower }
  else if name = "client_max_body_size" then some <|
    match v with
    | [arg] =>
      match parseByteSize arg with
      | .error w => .error (.invArg w)
      | .ok n => .ok { s with clientMaxBodySize := n }
    | _ => .error (.synH (formatError (exactArgMsg "client_max_body_size" 1 v.length) line col))
  else if name = "error_page" then some <|
    if v.length < 2 then
      .error (.synH (formatError (minArgMsg "error_page" 2 v.length) line col))
    else applyErrorPages (v.getLast?.getD "") s v.dropLast
  else none

/-- Comma splitting used by the `index` / `cgi_extension` handlers:
split on `','`, keep the non-empty pieces in order. -/
def splitCommaAux : List Char → List Char → List String
  | [], acc => [String.mk acc]
  | c :: rest, acc =>
    if c = ',' then String.mk acc :: splitCommaAux rest []
    else splitCommaAux rest (acc ++ [c])

def commaPieces (raw : String) : List String :=
  (splitCommaAux raw.data []).filter (fun p => ¬p.isEmpty)

/-- The closed HTTP method set of the `methods` handler. -/
def validMethods : List String :=
  ["GET", "HEAD", "POST", "PUT", "DELETE", "CONNECT", "OPTIONS", "TRACE", "PATCH"]

/-- The `methods` handler's loop: validate each method against the
closed set, then add it to the location's method set. -/
def applyMethods (line col : Int) : Location → List String → Except HandlerExc Location
  | loc, [] => .ok loc
  | loc, m :: ms =>
    if m ∈ validMethods then
      applyMethods line col { loc with methods := insertSet m loc.methods } ms
    else
      .error (.synH (formatError ("Invalid HTTP method: " ++ m) line col))

/-- The location-level handler table (`directive::locationHandlers`). -/
def applyLocationDirective (name : String) (loc : Location) (v : List String)
    (line col : Int) : Option (Except HandlerExc Location) :=
  if name = "root" then some <|
    match v with
    | [arg] => .ok { loc with root := arg }
    | _ => .error (.synH (formatError (exactArgMsg "root" 1 v.length) line col))
  else if name = "index" then some <|
    if v.isEmpty then
      .error (.synH (formatError (minArgMsg "index" 1 v.length) line col))
    else .ok { loc with indexFiles := loc.indexFiles ++ (v.map commaPieces).flatten }
  else if name = "autoindex" then some <|
    match v with
    | [arg] =>
      if arg = "on" then .ok { loc with autoindex := true }
      else if arg = "off" then .ok { loc with autoindex := false }
      else .error (.synH (formatError ("Invalid value for 'autoindex': " ++ arg) line col))
    | _ => .error (.synH (formatError (exactArgMsg "autoindex" 1 v.length) line col))
  else if name = "methods" then some <|
    if v.isEmpty then
      .error (.synH (formatError "Directive 'methods' requires at least one HTTP method"
        line col))
    else applyMethods line col loc v
  else if name = "upload_store" then some <|
    match v with
    | [arg] => .ok { loc with uploadStore := arg }
    | _ => .error (.synH (formatError (exactArgMsg "upload_store" 1 v.length) line col))
  else if name = "cgi_extension" then some <|
    if v.isEmpty then
      .error (.synH (formatError (minArgMsg "cgi_extension" 1 v.length) line col))
    else .ok { loc with cgiExtensions := loc.cgiExtensions ++ (v.map commaPieces).flatten }
  else if name = "return" then some <|
    match v with
    | [codeArg, target] =>
      match parseInt codeArg with
      | .error w => .error (.invArg w)
      | .ok code => .ok { loc with redirect := target, returnCode := code }
    | _ => .error (.synH (formatError (exactArgMsg "return" 2 v.length) line col))
  else none

/-! ## Parser (`ConfigParser.cpp`) -/

/-- Parse failure kinds: `SyntaxError`, `UnexpectedToken` (both with
their formatted message), an out-of-bounds `std::vector::at` access
(`bug`, which the C++ would surface as an uncaught `std::out_of_range`
crash), and the fuel marker. -/
inductive PError where
  | synE (msg : String)
  | unexpE (msg : String)
  | bug
  | fuelE
  deriving DecidableEq, Repr

/-- `ConfigParser::current`: checked access `_tokens.at(_pos)`. -/
def currentT (ts : List Token) (pos : Nat) : Except PError Token :=
  match ts.get? pos with
  | some t => .ok t
  | none => .error .bug

/-- `ConfigParser::isAtEnd`: `_pos >= size || _tokens[_pos].type == EOF`
(the second read is short-circuit-guarded, hence in bounds). -/
def isAtEndT (ts : List Token) (pos : Nat) : Bool :=
  match ts.get? pos with
  | none => true
  | some t => t.type = .END_OF_FILE

/-- `ConfigParser::advance`: increment unless at end, then return the
(new) current token. -/
def advanceT (ts : List Token) (pos : Nat) : Except PError (Token × Nat) :=
  let pos1 := if isAtEndT ts pos then pos else pos + 1
  match currentT ts pos1 with
  | .error e => .error e
  | .ok t => .ok (t, pos1)

/-- `ConfigParser::match`: consume the current token iff it has the
given type (and the cursor is not at end). -/
def matchT (ts : List Token) (pos : Nat) (ty : TokenType) : Bool × Nat :=
  if isAtEndT ts pos then (false, pos)
  else
    match ts.get? pos with
    | some t => if t.type = ty then (true, pos + 1) else (false, pos)
    | none => (false, pos)

/-- `ConfigParser::expect`: consume a token of the expected type or
fail with `UnexpectedToken`; the reported token is `_tokens.back()`
when at end (undefined on an empty vector, modelled as `bug`). -/
def expectT (ts : List Token) (pos : Nat) (expected : TokenType) (ctx : String) :
    Except PError Nat :=
  if isAtEndT ts pos then
    match ts.getLast? with
    | none => .error .bug
    | some actual =>
      .error (.unexpE (formatError ("Expected " ++ debugTokenType expected ++ ", but got " ++
        debugTokenType actual.type ++ " for " ++ ctx) actual.line actual.column))
  else
    match ts.get? pos with
    | none => .error .bug
    | some t =>
      if t.type = expected then .ok (pos + 1)
      else
        .error (.unexpE (formatError ("Expected " ++ debugTokenType expected ++ ", but got " ++
          debugTokenType t.type ++ " for " ++ ctx) t.line t.column))

def joinOrTypes : List TokenType → String
  | [] => ""
  | x :: xs => xs.foldl (fun acc y => acc ++ " or " ++ debugTokenType y) (debugTokenType x)

/-- `ConfigParser::expectOneOf`.  On a match it returns `advance()`,
i.e. the token *after* the matched one (`advance` increments first and
then returns `current()`). -/
def expectOneOfT (ts : List Token) (pos : Nat) (types : List TokenType) (ctx : String) :
    Except PError (Token × Nat) :=
  match currentT ts pos with
  | .error e => .error e
  | .ok t =>
    if t.type ∈ types then advanceT ts pos
    else
      .error (.unexpE (formatError ("Expected " ++ joinOrTypes types ++ " for " ++ ctx ++
        ", but got " ++ debugTokenType t.type) t.line t.column))

/-- `ConfigParser::collectArgs` with the argument token types
`{STRING, NUMBER, IDENTIFIER}`. -/
def collectArgsT : Nat → List Token → Nat → List String → Except PError (List String × Nat)
  | 0, _, _, _ => .error .fuelE
  | fuel + 1, ts, pos, acc =>
    if isAtEndT ts pos then .ok (acc, pos)
    else
      match ts.get? pos with
      | none => .error .bug
      | some t =>
        if t.type = .STRING || t.type = .NUMBER || t.type = .IDENTIFIER then
          match advanceT ts pos with
          | .error e => .error e
          | .ok (_, pos1) => collectArgsT fuel ts pos1 (acc ++ [t.value])
        else .ok (acc, pos)

/-- `parseDirective` wrapping of handler failures into `SyntaxError`
(`invalid_argument` / `out_of_range` `what()` strings are re-formatted
at the directive's position). -/
def wrapHandlerExc (line col : Int) : HandlerExc → PError
  | .synH m => .synE m
  | .invArg w => .synE (formatError w line col)
  | .outRange w => .synE (formatError w line col)

/-- `ConfigParser::parseServerDirective` plus the generic
`parseDirective` dispatcher. -/
def parseServerDirectiveT (fuel : Nat) (ts : List Token) (pos : Nat) (srv : Server) :
    Except PError (Server × Nat) :=
  match currentT ts pos with
  | .error e => .error e
  | .ok key =>
    match advanceT ts pos with
    | .error e => .error e
    | .ok (_, pos1) =>
      match collectArgsT fuel ts pos1 [] with
      | .error e => .error e
      | .ok (values, pos2) =>
        match expectT ts pos2 .SEMICOLON "semicolon after server directive" with
        | .error e => .error e
        | .ok pos3 =>
          match applyServerDirective (strLower key.value) srv values key.line key.column with
          | none =>
            .error (.synE (formatError ("Unknown directive: '" ++ key.value ++ "'")
              key.line key.column))
          | some (.error exc) => .error (wrapHandlerExc key.line key.column exc)
          | some (.ok srv1) => .ok (srv1, pos3)

/-- `ConfigParser::parseLocationDirective` plus the dispatcher. -/
def parseLocationDirectiveT (fuel : Nat) (ts : List Token) (pos : Nat) (loc : Location) :
    Except PError (Location × Nat) :=
  match currentT ts pos with
  | .error e => .error e
  | .ok key =>
    match advanceT ts pos with
    | .error e => .error e
    | .ok (_, pos1) =>
      match collectArgsT fuel ts pos1 [] with
      | .error e => .error e
      | .ok (values, pos2) =>
        match expectT ts pos2 .SEMICOLON "semicolon after location directive" with
        | .error e => .error e
        | .ok pos3 =>
          match applyLocationDirective (strLower key.value) loc values key.line key.column with
          | none =>
            .error (.synE (formatError ("Unknown directive: '" ++ key.value ++ "'")
              key.line key.column))
          | some (.error exc) => .error (wrapHandlerExc key.line key.column exc)
          | some (.ok loc1) => .ok (loc1, pos3)

/-- Repeatable directive sets (`kRepeatableServerDirectives` /
`kRepeatableLocationDirectives`). -/
def repeatableServer : List String := ["error_page"]
def repeatableLocation : List String := ["methods"]

/-- `checkDuplicateDirective`: allowed iff repeatable or not yet seen;
inserts the name into the seen set when not repeatable. -/
def checkDuplicateDirective (name : String) (seen : List String)
    (repeatable : List String) : Bool × List String :=
  if name ∈ repeatable then (true, seen)
  else if name ∈ seen then (false, insertSet name seen)
  else (true, insertSet name seen)

/-- Directive loop of `ConfigParser::parseLocation`. -/
def locationLoopT : Nat → List Token → Nat → List String → Location →
    Except PError (Location × Nat)
  | 0, _, _, _, _ => .error .fuelE
  | fuel + 1, ts, pos, seen, loc =>
    if isAtEndT ts pos then .ok (loc, pos)
    else
      match ts.get? pos with
      | none => .error .bug
      | some t =>
        if t.type = .RBRACE then .ok (loc, pos)
        else
          let name := strLower t.value
          let chk := checkDuplicateDirective name seen repeatableLocation
          if chk.1 then
            match parseLocationDirectiveT fuel ts pos loc with
            | .error e => .error e
            | .ok (loc1, pos1) => locationLoopT fuel ts pos1 chk.2 loc1
          else
            .error (.synE (formatError ("Duplicate directive: '" ++ name ++ "'")
              t.line t.column))

/-- `ConfigParser::parseLocation`.  Note that the location path is set
from the token `expectOneOf` returns — which, through `advance()`, is
the token *after* the path token. -/
def parseLocationT (fuel : Nat) (ts : List Token) (pos : Nat) :
    Except PError (Location × Nat) :=
  match expectT ts pos .KEYWORD_LOCATION "location block" with
  | .error e => .error e
  | .ok pos1 =>
    match expectOneOfT ts pos1 [.STRING, .IDENTIFIER] "location path" with
    | .error e => .error e
    | .ok (pathTok, pos2) =>
      match expectT ts pos2 .LBRACE "start of location block" with
      | .error e => .error e
      | .ok pos3 =>
        match locationLoopT fuel ts pos3 [] { path := pathTok.value } with
        | .error e => .error e
        | .ok (loc1, pos4) =>
          match expectT ts pos4 .RBRACE "end of location block" with
          | .error e => .error e
          | .ok pos5 => .ok (loc1, pos5)

/-- Directive/location loop of `ConfigParser::parseServer`. -/
def serverLoopT : Nat → List Token → Nat → List String → Server →
    Except PError (Server × Nat)
  | 0, _, _, _, _ => .error .fuelE
  | fuel + 1, ts, pos, seen, srv =>
    if isAtEndT ts pos then .ok (srv, pos)
    else
      match ts.get? pos with
      | none => .error .bug
      | some t =>
        if t.type = .RBRACE then .ok (srv, pos)
        else if t.type = .KEYWORD_LOCATION then
          match parseLocationT fuel ts pos with
          | .error e => .error e
          | .ok (loc, pos1) =>
            serverLoopT fuel ts pos1 seen { srv with locations := srv.locations ++ [loc] }
        else
          let name := strLower t.value
          let chk := checkDuplicateDirective name seen repeatableServer
          if chk.1 then
            match parseServerDirectiveT fuel ts pos srv with
            | .error e => .error e
            | .ok (srv1, pos1) => serverLoopT fuel ts pos1 chk.2 srv1
          else
            .error (.synE (formatError ("Duplicate directive: '" ++ name ++ "'")
              t.line t.column))

/-- `ConfigParser::parseServer`. -/
def parseServerT (fuel : Nat) (ts : List Token) (pos : Nat) :
    Except PError (Server × Nat) :=
  match expectT ts pos .KEYWORD_SERVER "server block" with
  | .error e => .error e
  | .ok pos1 =>
    match expectT ts pos1 .LBRACE "start of server block" with
    | .error e => .error e
    | .ok pos2 =>
      match serverLoopT fuel ts pos2 [] {} with
      | .error e => .error e
      | .ok (srv, pos3) =>
        match expectT ts pos3 .RBRACE "end of server block" with
        | .error e => .error e
        | .ok pos4 => .ok (srv, pos4)

/-- Top-level loop of `ConfigParser::parseConfig`. -/
def configLoopT : Nat → List Token → Nat → List Server → Except PError (List Server)
  | 0, _, _, _ => .error .fuelE
  | fuel + 1, ts, pos, acc =>
    if isAtEndT ts pos then .ok acc
    else
      match currentT ts pos with
      | .error e => .error e
      | .ok t =>
        if t.type = .KEYWORD_SERVER then
          match parseServerT fuel ts pos with
          | .error e => .error e
          | .ok (srv, pos1) =>
            if ¬isAtEndT ts pos1 then
              match currentT ts pos1 with
              | .error e => .error e
              | .ok t2 =>
                if t2.type ≠ .KEYWORD_SERVER ∧ t2.type ≠ .END_OF_FILE then
                  .error (.synE (formatError "Unexpected token after server block"
                    t2.line t2.column))
                else configLoopT fuel ts pos1 (acc ++ [srv])
            else configLoopT fuel ts pos1 (acc ++ [srv])
        else
          .error (.synE (formatError "Expected 'server' block" t.line t.column))

/-- `ConfigParser::parseConfig` over a token vector. -/
def parseConfigT (ts : List Token) (fuel : Nat) : Except PError Config :=
  if isAtEndT ts 0 then .error (.synE (formatError "Empty configuration" 1 1))
  else
    match configLoopT fuel ts 0 [] with
    | .error e => .error e
    | .ok servers => .ok { servers := servers }

/-- Combined failure kind of the whole front-end. -/
inductive CError where
  | tokenizerE (msg : String)
  | syntaxE (msg : String)
  | unexpectedE (msg : String)
  | bugE
  | fuelOut
  deriving DecidableEq, Repr

def liftPError : PError → CError
  | .synE m => .syntaxE m
  | .unexpE m => .unexpectedE m
  | .bug => .bugE
  | .fuelE => .fuelOut

/-- The message carried by a failure (empty for the two abnormal
kinds). -/
def CError.msg : CError → String
  | .tokenizerE m => m
  | .syntaxE m => m
  | .unexpectedE m => m
  | .bugE => ""
  | .fuelOut => ""

/-- End-to-end front-end: `ConfigParser` construction (tokenize) plus
`parseConfig`, as exercised by `ConfigParser(source).parseConfig()`. -/
def parseConfigFull (input : List Char) : Except CError Config :=
  match tokenize input with
  | .error m => .error (.tokenizerE m)
  | .ok ts =>
    match parseConfigT ts (ts.length + 1) with
    | .error e => .error (liftPError e)
    | .ok cfg => .ok cfg

/-! ## Auxiliary notions used by the property statements -/

/-- Needle matches at the head of the haystack. -/
def subAt : List Char → List Char → Bool
  | [], _ => true
  | _ :: _, [] => false
  | n :: ns, h :: hs => n = h && subAt ns hs

/-- Needle occurs contiguously somewhere in the haystack. -/
def containsSeq (needle : List Char) : List Char → Bool
  | [] => subAt needle []
  | h :: hs => subAt needle (h :: hs) || containsSeq needle hs

/-- Substring containment, used to state "the message contains …". -/
def strContainsSub (hay needle : String) : Bool := containsSeq needle.data hay.data

/-- Decidable equality of outcomes, for concrete evaluation. -/
instance instDecEqExcept {e a : Type _} [DecidableEq e] [DecidableEq a] :
    DecidableEq (Except e a)
  | .ok x, .ok y => decidable_of_iff (x = y) (by simp)
  | .error x, .error y => decidable_of_iff (x = y) (by simp)
  | .ok _, .error _ => isFalse (fun h => Except.noConfusion h)
  | .error _, .ok _ => isFalse (fun h => Except.noConfusion h)

/-- Source text of `n` doubled-backslash escape sequences, i.e. the raw
span `\\` repeated `n` times; each pair decodes to one backslash. -/
def escPairs : Nat → List Char
  | 0 => []
  | n + 1 => '\\' :: '\\' :: escPairs n

/-! ### Offset-forgetting views (used for the BOM-transparency analysis) -/

/-- View of a token that forgets the byte offset (kind, lexeme, line, column). -/
def tokenView (t : Token) : TokenType × String × Nat × Nat :=
  (t.type, t.value, t.line, t.column)

/-- View of a scan result that forgets every byte position. -/
def scanResView (r : ScanResult) : (TokenType × String × Nat × Nat) × List Char × Nat × Nat :=
  (tokenView r.1, r.2.1, r.2.2.1, r.2.2.2.1)

/-- View of a whitespace-skip result that forgets the byte position. -/
def wsView (r : List Char × Nat × Nat × Nat) : List Char × Nat × Nat :=
  (r.1, r.2.1, r.2.2.1)

/-- View of a unit-suffix scan that forgets the byte position. -/
def suView (r : List Char × List Char × Nat × Nat × Nat) :
    List Char × List Char × Nat × Nat :=
  (r.1, r.2.1, r.2.2.1, r.2.2.2.1)

/-- View of a tokenizer-loop result that forgets every byte offset. -/
def loopView (r : List Token × Nat × Nat × Nat) :
    List (TokenType × String × Nat × Nat) × Nat × Nat :=
  (r.1.map tokenView, r.2.1, r.2.2.1)

/-! ### The C1 invariants -/

/-- The C1 invariant on a location: every stored method is one of the nine
valid HTTP methods. -/
def GoodLocation (l : Location) : Prop := ∀ m ∈ l.methods, m ∈ validMethods

/-- The C1 invariant on a server: the port is in [0, 65535] and every
location satisfies the location invariant. -/
def GoodServer (s : Server) : Prop :=
  0 ≤ s.port ∧ s.port ≤ 65535 ∧ ∀ l ∈ s.locations, GoodLocation l

/-! ### Well-formed token vectors (C10) -/

/-- Well-formed token vector: a (possibly empty) run of non-EOF tokens
followed by exactly one END_OF_FILE token. -/
def wfTokens (ts : List Token) : Prop :=
  ∃ front last, ts = front ++ [last] ∧ last.type = .END_OF_FILE ∧
    ∀ t ∈ front, t.type ≠ .END_OF_FILE

/-! ## Helper lemmas -/

theorem natOfDigits_replicate_zero (n : Nat) : natOfDigits (List.replicate n '0') = 0 := by
  induction n with
  | zero => rfl
  | succ n ih =>
    rw [List.replicate_succ]
    show List.foldl _ 0 ('0' :: List.replicate n '0') = 0
    rw [List.foldl_cons]
    exact ih

theorem takeWhile_all {p : Char → Bool} {l : List Char} (h : ∀ c ∈ l, p c) :
    l.takeWhile p = l := by
  induction l with
  | nil => rfl
  | cons c cs ih =>
    rw [List.takeWhile_cons, h c (by simp)]
    simp [ih (fun x hx => h x (by simp [hx]))]

theorem dropWhile_all {p : Char → Bool} {l : List Char} (h : ∀ c ∈ l, p c) :
    l.dropWhile p = [] := by
  induction l with
  | nil => rfl
  | cons c cs ih =>
    rw [List.dropWhile_cons, h c (by simp)]
    simp [ih (fun x hx => h x (by simp [hx]))]

theorem parseInt_nonneg {s : String} {v : Int} (h : parseInt s = .ok v) : 0 ≤ v := by
  simp only [parseInt] at h
  split at h
  all_goals split at h
  all_goals try exact Except.noConfusion h
  all_goals rename_i hcond
  all_goals simp only [Bool.or_eq_true, decide_eq_true_eq, not_or] at hcond
  all_goals injection h with h1
  all_goals omega

theorem ne_of_digit {x y : Char} (hx : isDigitC x = true) (hy : isDigitC y = false) :
    x ≠ y := by
  intro h; rw [h, hy] at hx; cases hx

theorem parseByteSize_digits_suffix (ds : List Char) (suffix : Char) (mult : Nat)
    (hne : ds ≠ []) (hall : ∀ ch ∈ ds, isDigitC ch) (hlt : natOfDigits ds < 2 ^ 64)
    (hmem : (suffix, mult) ∈ [('k', 1024), ('K', 1024), ('m', 1048576), ('M', 1048576),
      ('g', 1073741824), ('G', 1073741824)]) :
    parseByteSize (String.mk (ds ++ [suffix])) =
      .ok (natOfDigits ds * mult % 2 ^ 64) := by
  have hcs : (String.mk (ds ++ [suffix])).data = ds ++ [suffix] := rfl
  have hemp : (ds ++ [suffix]).isEmpty = false := by
    cases ds <;> rfl
  have hempds : ds.isEmpty = false := by
    cases ds with | nil => exact absurd rfl hne | cons a b => rfl
  have hlast : (ds ++ [suffix]).getLast? = some suffix := by
    simp
  have hdrop : (ds ++ [suffix]).dropLast = ds := by
    simp
  simp only [List.mem_cons, List.not_mem_nil, or_false, Prod.mk.injEq] at hmem
  rcases hmem with ⟨rfl, rfl⟩ | ⟨rfl, rfl⟩ | ⟨rfl, rfl⟩ | ⟨rfl, rfl⟩ | ⟨rfl, rfl⟩ |
    ⟨rfl, rfl⟩ <;>
  · simp only [parseByteSize, hcs, hemp, hlast, hdrop, Option.getD_some,
      Bool.false_eq_true, if_false]
    simp [takeWhile_all hall, dropWhile_all hall, hempds, Nat.not_le.mpr hlt]
    all_goals omega

theorem parseByteSize_digits (ds : List Char)
    (hne : ds ≠ []) (hall : ∀ ch ∈ ds, isDigitC ch) (hlt : natOfDigits ds < 2 ^ 64) :
    parseByteSize (String.mk ds) = .ok (natOfDigits ds) := by
  have hemp : ds.isEmpty = false := by
    cases ds with | nil => exact absurd rfl hne | cons a b => rfl
  obtain ⟨x, hx⟩ : ∃ x, ds.getLast? = some x := by
    cases ds with
    | nil => exact absurd rfl hne
    | cons a b => exact ⟨_, List.getLast?_eq_getLast _ (by simp)⟩
  have hxd : isDigitC x = true := by
    obtain ⟨hh, hh2⟩ := List.mem_getLast?_eq_getLast (show x ∈ ds.getLast? from hx)
    exact hall x (hh2 ▸ List.getLast_mem hh)
  have k1 := ne_of_digit hxd (y := 'k') (by decide)
  have k2 := ne_of_digit hxd (y := 'K') (by decide)
  have k3 := ne_of_digit hxd (y := 'm') (by decide)
  have k4 := ne_of_digit hxd (y := 'M') (by decide)
  have k5 := ne_of_digit hxd (y := 'g') (by decide)
  have k6 := ne_of_digit hxd (y := 'G') (by decide)
  simp only [parseByteSize, hemp, Bool.false_eq_true, if_false, hx, Option.getD_some,
    decide_eq_false k1, decide_eq_false k2, decide_eq_false k3, decide_eq_false k4,
    decide_eq_false k5, decide_eq_false k6, Bool.or_false, Bool.false_or, Bool.or_self,
    ite_false]
  rw [takeWhile_all hall, dropWhile_all hall]
  simp only [hemp, Bool.false_or, List.isEmpty_nil, Bool.not_true, Bool.or_false,
    List.dropWhile_nil]
  rw [decide_eq_false (Nat.not_le.mpr (by omega))]
  have hmod : natOfDigits ds * 1 % 2 ^ 64 = natOfDigits ds := by omega
  simp [hmod]
  all_goals omega

/-! ## C9 — `parseInt` accepts "-0…0" and rejects negatives -/

/-- C9: the directive-level integer parser accepts a minus sign
followed by zeros.  (1) `server \x7b listen -0; \x7d` parses
successfully and the resulting server has port 0 (the `-0` lexes as an
IDENTIFIER and is collected as an argument).  (2) `parseInt` returns 0
on `'-'` followed by any positive number of `'0'` digits.  (3) every
successful `parseInt` result is non-negative, i.e. all strings denoting
strictly negative values are rejected. -/
theorem C9_parseInt_minus_zero :
    (parseConfigFull "server { listen -0; }".data =
      .ok { servers := [{ port := 0 }] }) ∧
    (∀ k : Nat, parseInt (String.mk ('-' :: List.replicate (k + 1) '0')) = .ok 0) ∧
    (∀ s : String, ∀ v : Int, parseInt s = .ok v → 0 ≤ v) := by
  refine ⟨by decide, ?_, fun s v h => parseInt_nonneg h⟩
  intro k
  have hall : ∀ c ∈ List.replicate (k + 1) '0', isDigitC c := by
    intro c hc
    rw [List.eq_of_mem_replicate hc]
    decide
  simp only [parseInt, List.headD_cons, List.tail_cons, ite_true]
  rw [takeWhile_all hall, dropWhile_all hall, natOfDigits_replicate_zero]
  have h3 : (List.replicate (k + 1) '0').isEmpty = false := by
    rw [List.replicate_succ]; rfl
  rw [h3]
  norm_num

/-- C9 witness: the universally quantified parts instantiated at
`k = 0` and `s = "-0"`. -/
theorem C9_parseInt_minus_zero_witness :
    parseInt (String.mk ('-' :: List.replicate 1 '0')) = .ok 0 ∧ (0 : Int) ≤ 0 := by
  refine ⟨C9_parseInt_minus_zero.2.1 0, ?_⟩
  exact C9_parseInt_minus_zero.2.2 "-0" 0 (C9_parseInt_minus_zero.2.1 0)

/-! ## C2 — `listen` directive error taxonomy -/

/-- C2 counterexample: the claim says an overflowing numeric `listen`
argument fails with a message containing "out of integer range".  In
fact `parseInt` folds the overflow reported by `std::from_chars` into
the same `std::invalid_argument` as every other failure, so the
handler's `catch (std::out_of_range)` branch is dead and the message is
"Invalid port number: …".  A second conjunct shows `-5` — an
in-`int`-range value outside [0, 65535] — also reporting "Invalid port
number" rather than "out of valid range (0-65535)". -/
theorem C2_listen_overflow_counterexample :
    (parseConfigFull "server { listen 99999999999999999999; }".data =
      .error (.syntaxE "Line 1, column 10: Invalid port number: 99999999999999999999")) ∧
    (strContainsSub "Line 1, column 10: Invalid port number: 99999999999999999999"
      "out of integer range" = false) ∧
    (parseConfigFull "server { listen -5; }".data =
      .error (.syntaxE "Line 1, column 10: Invalid port number: -5")) ∧
    (strContainsSub "Line 1, column 10: Invalid port number: -5"
      "out of valid range (0-65535)" = false) :=
  ⟨by decide, by decide, by decide, by decide⟩

/-- C2 (amended): for `listen` with exactly one argument, every
`parseInt` failure — non-numeric input, trailing characters, integer
overflow, or a negative value — produces the `SyntaxError` "Invalid
port number: <v>"; in particular a pure digit string whose value
exceeds `2^31 - 1` is such a failure (so the "out of integer range"
branch is unreachable).  A successfully parsed value above 65535
produces "Port number out of valid range (0-65535): <v>", and a
successfully parsed value at most 65535 is stored as the server's
port. -/
theorem C2_listen_error_taxonomy :
    (∀ (srv : Server) (arg w : String) (l c : Int), parseInt arg = .error w →
      applyServerDirective "listen" srv [arg] l c =
        some (.error (.synH (formatError ("Invalid port number: " ++ arg) l c)))) ∧
    (∀ ds : List Char, ds ≠ [] → (∀ ch ∈ ds, isDigitC ch) →
      (2 ^ 31 : Int) - 1 < (natOfDigits ds : Int) →
      parseInt (String.mk ds) =
        .error ("Line -1, column -1: Invalid number for '?': " ++ String.mk ds ++
          "\n  --> ")) ∧
    (∀ (srv : Server) (arg : String) (p l c : Int), parseInt arg = .ok p → 65535 < p →
      applyServerDirective "listen" srv [arg] l c =
        some (.error (.synH (formatError
          ("Port number out of valid range (0-65535): " ++ arg) l c)))) ∧
    (∀ (srv : Server) (arg : String) (p l c : Int), parseInt arg = .ok p → p ≤ 65535 →
      applyServerDirective "listen" srv [arg] l c = some (.ok { srv with port := p })) := by
  refine ⟨?_, ?_, ?_, ?_⟩
  · intro srv arg w l c h
    simp [applyServerDirective, h]
  · intro ds hne hall hbig
    cases ds with
    | nil => exact absurd rfl hne
    | cons d ds' =>
      have hd : d ≠ '-' := by
        have := hall d (by simp)
        intro hh; rw [hh] at this; exact absurd this (by decide)
      simp only [parseInt, List.headD_cons, if_neg hd]
      rw [takeWhile_all hall, dropWhile_all hall]
      rw [if_pos]
      simp only [Bool.or_eq_true, decide_eq_true_eq]
      omega
  · intro srv arg p l c h hgt
    have h0 := parseInt_nonneg h
    simp only [applyServerDirective, h]
    have hcond : (decide (p < 0) || decide (65535 < p)) = true := by
      simp only [Bool.or_eq_true, decide_eq_true_eq]
      omega
    rw [if_pos hcond]
    simp
  · intro srv arg p l c h hle
    have h0 := parseInt_nonneg h
    simp only [applyServerDirective, h]
    have hcond : ¬((decide (p < 0) || decide (65535 < p)) = true) := by
      simp only [Bool.or_eq_true, decide_eq_true_eq]
      omega
    rw [if_neg hcond]
    simp

/-- C2 witness: the amended taxonomy at concrete inputs "abc"
(non-numeric), "9999999999" (overflow), "70000" (domain) and "8080"
(success). -/
theorem C2_listen_error_taxonomy_witness :
    (applyServerDirective "listen" {} ["abc"] 1 10 =
      some (.error (.synH (formatError ("Invalid port number: " ++ "abc") 1 10)))) ∧
    (parseInt (String.mk "9999999999".data) =
      .error ("Line -1, column -1: Invalid number for '?': " ++
        String.mk "9999999999".data ++ "\n  --> ")) ∧
    (applyServerDirective "listen" {} ["70000"] 1 10 =
      some (.error (.synH (formatError
        ("Port number out of valid range (0-65535): " ++ "70000") 1 10)))) ∧
    (applyServerDirective "listen" {} ["8080"] 1 10 = some (.ok { port := 8080 })) := by
  refine ⟨?_, ?_, ?_, ?_⟩
  · exact C2_listen_error_taxonomy.1 {} "abc"
      "Line -1, column -1: Invalid number for '?': abc\n  --> " 1 10 (by decide)
  · exact C2_listen_error_taxonomy.2.1 "9999999999".data (by decide) (by decide) (by decide)
  · exact C2_listen_error_taxonomy.2.2.1 {} "70000" 70000 1 10 (by decide) (by decide)
  · exact C2_listen_error_taxonomy.2.2.2 {} "8080" 8080 1 10 (by decide) (by decide)

/-! ## C3 — `client_max_body_size` number-with-unit decoding -/

/-- C3 counterexample: the claim states the stored value is `n * M`
for *every* digit string `n` that parses.  `size_t` multiplication
wraps: for `n = 2^64 - 1` with suffix `k` the stored value is
`(2^64 - 1) * 1024 mod 2^64 = 2^64 - 1024`, not `n * 1024`. -/
theorem C3_byte_size_wrap_counterexample :
    (parseByteSize "18446744073709551615k" = .ok 18446744073709550592) ∧
    ((18446744073709550592 : Nat) ≠ 18446744073709551615 * 1024) ∧
    (parseConfigFull "server { client_max_body_size 18446744073709551615k; }".data =
      .ok { servers := [{ clientMaxBodySize := 18446744073709550592 }] }) :=
  ⟨by decide, by decide, by decide⟩

/-- C3 (amended): for every digit string `n` whose value fits `size_t`
(`< 2^64`) and every suffix in `k/K`, `m/M`, `g/G`, the
`client_max_body_size` handler stores `n * M mod 2^64` bytes, where `M`
is 1024, 1024², 1024³ respectively — this equals `n * M` exactly when
the product does not overflow `size_t`.  With no suffix it stores
exactly `n` bytes. -/
theorem C3_byte_size_units :
    (∀ (srv : Server) (l c : Int) (ds : List Char) (suffix : Char) (mult : Nat),
      ds ≠ [] → (∀ ch ∈ ds, isDigitC ch) → natOfDigits ds < 2 ^ 64 →
      (suffix, mult) ∈ [('k', 1024), ('K', 1024), ('m', 1048576), ('M', 1048576),
        ('g', 1073741824), ('G', 1073741824)] →
      applyServerDirective "client_max_body_size" srv [String.mk (ds ++ [suffix])] l c =
        some (.ok { srv with clientMaxBodySize := natOfDigits ds * mult % 2 ^ 64 })) ∧
    (∀ (srv : Server) (l c : Int) (ds : List Char),
      ds ≠ [] → (∀ ch ∈ ds, isDigitC ch) → natOfDigits ds < 2 ^ 64 →
      applyServerDirective "client_max_body_size" srv [String.mk ds] l c =
        some (.ok { srv with clientMaxBodySize := natOfDigits ds })) := by
  constructor
  · intro srv l c ds suffix mult hne hall hlt hmem
    simp [applyServerDirective, parseByteSize_digits_suffix ds suffix mult hne hall hlt hmem]
  · intro srv l c ds hne hall hlt
    simp [applyServerDirective, parseByteSize_digits ds hne hall hlt]

/-- C3 witness: `10k` decodes to 10240 bytes and plain `10` to 10
bytes. -/
theorem C3_byte_size_units_witness :
    (applyServerDirective "client_max_body_size" {} [String.mk ("10".data ++ ['k'])] 1 1 =
      some (.ok { clientMaxBodySize := 10240 })) ∧
    (applyServerDirective "client_max_body_size" {} [String.mk "10".data] 1 1 =
      some (.ok { clientMaxBodySize := 10 })) := by
  constructor
  · exact C3_byte_size_units.1 {} 1 1 "10".data 'k' 1024 (by decide) (by decide)
      (by decide) (by decide)
  · exact C3_byte_size_units.2 {} 1 1 "10".data (by decide) (by decide) (by decide)

/-! ## C8 — string literal 64 KiB limit

Equation lemmas for `stringLitLoop` (its equation compiler output is a
single `eq_def`), then the limit properties. -/

theorem stringLitLoop_nil (q : Char) (content : List Char) (line col pos : Nat) :
    stringLitLoop q [] content line col pos =
      .error (formatError "Unterminated string literal (end of input)" line col) := by
  rw [stringLitLoop.eq_def]

theorem stringLitLoop_newline (q : Char) (rest content : List Char) (line col pos : Nat) :
    stringLitLoop q ('\n' :: rest) content line col pos =
      .error (formatError "Unterminated string literal (unexpected newline)" line col) := by
  rw [stringLitLoop.eq_def]
  simp

theorem stringLitLoop_close (q : Char) (rest content : List Char) (line col pos : Nat)
    (h1 : q ≠ '\n') :
    stringLitLoop q (q :: rest) content line col pos =
      .ok (makeToken .STRING (String.mk content) line (col + 1) (pos + 1),
        rest, line, col + 1, pos + 1) := by
  rw [stringLitLoop.eq_def]
  simp [h1]

theorem stringLitLoop_plain (q ch : Char) (rest content : List Char) (line col pos : Nat)
    (h1 : ch ≠ '\n') (h2 : ch ≠ q) (h3 : ch ≠ '\\') :
    stringLitLoop q (ch :: rest) content line col pos =
      (if 64 * 1024 < (content ++ [ch]).length then
        .error (formatError "String literal exceeds 64 KiB limit" line (col + 1))
      else
        stringLitLoop q rest (content ++ [ch]) line (col + 1) (pos + 1)) := by
  rw [stringLitLoop.eq_def]
  simp [h1, h2, h3]

theorem stringLitLoop_esc (q e : Char) (rest content : List Char) (line col pos : Nat)
    (hq : q ≠ '\'' ∧ q ≠ '\n' ∧ q ≠ '\\') :
    stringLitLoop q ('\\' :: e :: rest) content line col pos =
      (let line2 := if e = '\n' then line + 1 else line
       let col2 := if e = '\n' then 1 else col + 2
       match escDecode e with
       | none =>
         .error (formatError ("Invalid escape sequence \\" ++ String.mk [e] ++
           " in " ++ String.mk [q] ++ "-quoted string") line2 col2)
       | some d =>
         if 64 * 1024 < (content ++ [d]).length then
           .error (formatError "String literal exceeds 64 KiB limit" line2 col2)
         else
           stringLitLoop q rest (content ++ [d]) line2 col2 (pos + 2)) := by
  rw [stringLitLoop.eq_def]
  simp [hq.1, hq.2.1, hq.2.2, Ne.symm hq.2.2]


theorem escDecode_ne_newline {e d : Char} (h : escDecode e = some d) : e ≠ '\n' := by
  intro he; subst he; simp [escDecode] at h

theorem stringLitLoop_esc_ok (q e d : Char) (rest content : List Char)
    (line col pos : Nat) (hq : q ≠ '\'' ∧ q ≠ '\n' ∧ q ≠ '\\')
    (hd : escDecode e = some d) :
    stringLitLoop q ('\\' :: e :: rest) content line col pos =
      (if 64 * 1024 < (content ++ [d]).length then
        .error (formatError "String literal exceeds 64 KiB limit" line (col + 2))
      else
        stringLitLoop q rest (content ++ [d]) line (col + 2) (pos + 2)) := by
  have he := escDecode_ne_newline hd
  rw [stringLitLoop.eq_def]
  simp [hq.1, hq.2.1, hq.2.2, Ne.symm hq.2.2, hd, he]

theorem stringLitLoop_esc_bad (q e : Char) (rest content : List Char)
    (line col pos : Nat) (hq : q ≠ '\'' ∧ q ≠ '\n' ∧ q ≠ '\\')
    (hd : escDecode e = none) :
    stringLitLoop q ('\\' :: e :: rest) content line col pos =
      .error (formatError ("Invalid escape sequence \\" ++ String.mk [e] ++
        " in " ++ String.mk [q] ++ "-quoted string")
        (if e = '\n' then line + 1 else line) (if e = '\n' then 1 else col + 2)) := by
  rw [stringLitLoop.eq_def]
  simp [hq.1, hq.2.1, hq.2.2, Ne.symm hq.2.2, hd]

theorem escPairs_length (n : Nat) : (escPairs n).length = 2 * n := by
  induction n with
  | zero => rfl
  | succ n ih => simp [escPairs, ih]; omega

theorem subAt_refl_append : ∀ (n y : List Char), subAt n (n ++ y) = true
  | [], _ => rfl
  | h :: t, y => by simp [subAt, subAt_refl_append t y]

theorem containsSeq_suffix : ∀ (x n : List Char), containsSeq n (x ++ n) = true
  | [], n => by
    cases n with
    | nil => rfl
    | cons h t =>
      have h2 := subAt_refl_append (h :: t) []
      simp at h2
      simp [containsSeq, h2]
  | a :: x', n => by
    simp [containsSeq, containsSeq_suffix x' n]

theorem strContainsSub_formatError (m : String) (l c : Int) :
    strContainsSub (formatError m l c) m = true := by
  unfold strContainsSub formatError
  rw [String.data_append]
  exact containsSeq_suffix _ _

theorem dispatchToken_quote (l : List Char) (line col pos : Nat) :
    dispatchToken ('"' :: l) line col pos =
      stringLitLoop '"' l [] line (col + 1) (pos + 1) := by
  rw [dispatchToken.eq_def]
  simp [isDigitC, isIdentifierStart, isAlphaC]

theorem stringLitLoop_ok_length_aux (q : Char) (n : Nat) :
    ∀ (l content : List Char) (line col pos : Nat) (tok : Token) (r : List Char)
      (l2 c2 p2 : Nat),
      l.length ≤ n →
      (q = '"' ∨ q = '\'')  →
      content.length ≤ 64 * 1024 →
      stringLitLoop q l content line col pos = .ok (tok, r, l2, c2, p2) →
      tok.value.length ≤ 64 * 1024 := by
  induction n with
  | zero =>
    intro l content line col pos tok r l2 c2 p2 hsz hq hlen h
    have hl : l = [] := List.length_eq_zero.mp (Nat.le_zero.mp hsz)
    subst hl
    rw [stringLitLoop_nil] at h
    exact Except.noConfusion h
  | succ n ih =>
    intro l content line col pos tok r l2 c2 p2 hsz hq hlen h
    have hqn : q ≠ '\n' := by rcases hq with rfl | rfl <;> decide
    cases l with
    | nil =>
      rw [stringLitLoop_nil] at h
      exact Except.noConfusion h
    | cons ch rest =>
      by_cases h1 : ch = '\n'
      · subst h1; rw [stringLitLoop_newline] at h; exact Except.noConfusion h
      by_cases h2 : ch = q
      · subst h2
        rw [stringLitLoop_close _ _ _ _ _ _ hqn] at h
        injection h with h'
        injection h' with htok _
        subst htok
        simpa [makeToken] using hlen
      by_cases h3 : ch = '\\'
      · subst h3
        rcases hq with rfl | rfl
        · cases rest with
          | nil =>
            rw [stringLitLoop.eq_def] at h
            simp at h
          | cons e rest2 =>
            cases hesc : escDecode e with
            | none =>
              rw [stringLitLoop_esc_bad _ _ _ _ _ _ _ ⟨by decide, by decide, by decide⟩
                hesc] at h
              exact Except.noConfusion h
            | some d =>
              rw [stringLitLoop_esc_ok _ _ _ _ _ _ _ _ ⟨by decide, by decide, by decide⟩
                hesc] at h
              split at h
              · exact Except.noConfusion h
              · rename_i hle
                exact ih rest2 (content ++ [d]) line (col + 2) (pos + 2) tok r l2 c2 p2
                  (by simp only [List.length_cons] at hsz ⊢; omega) (Or.inl rfl)
                  (by simp only [List.length_append, List.length_cons, List.length_nil,
                    not_lt] at hle ⊢; omega) h
        · rw [stringLitLoop.eq_def] at h
          simp at h
      · rw [stringLitLoop_plain _ _ _ _ _ _ _ h1 h2 h3] at h
        split at h
        · exact Except.noConfusion h
        · rename_i hle
          exact ih rest (content ++ [ch]) line (col + 1) (pos + 1) tok r l2 c2 p2
            (by simp only [List.length_cons] at hsz ⊢; omega) hq
            (by simp only [List.length_append, List.length_cons, List.length_nil,
              not_lt] at hle ⊢; omega) h

theorem stringLitLoop_clean (q : Char) (hq : q = '"' ∨ q = '\'') :
    ∀ (content acc rest : List Char) (line col pos : Nat),
      (∀ ch ∈ content, ch ≠ q ∧ ch ≠ '\\' ∧ ch ≠ '\n') →
      acc.length + content.length ≤ 64 * 1024 →
      stringLitLoop q (content ++ q :: rest) acc line col pos =
        .ok (makeToken .STRING (String.mk (acc ++ content)) line (col + content.length + 1)
          (pos + content.length + 1), rest, line, col + content.length + 1,
          pos + content.length + 1) := by
  have hqn : q ≠ '\n' := by rcases hq with rfl | rfl <;> decide
  intro content
  induction content with
  | nil =>
    intro acc rest line col pos hclean hlen
    simp only [List.nil_append, List.length_nil, Nat.add_zero, List.append_nil]
    exact stringLitLoop_close q rest acc line col pos hqn
  | cons c cs ih =>
    intro acc rest line col pos hclean hlen
    obtain ⟨hc1, hc2, hc3⟩ := hclean c (by simp)
    rw [List.cons_append, stringLitLoop_plain _ _ _ _ _ _ _ hc3 hc1 hc2]
    have hA : ¬64 * 1024 < (acc ++ [c]).length := by
      simp only [List.length_append, List.length_cons, List.length_nil]
      simp only [List.length_cons] at hlen
      omega
    have hlen2 : (acc ++ [c]).length + cs.length ≤ 64 * 1024 := by
      simp only [List.length_append, List.length_cons, List.length_nil]
      simp only [List.length_cons] at hlen
      omega
    rw [if_neg hA]
    rw [ih (acc ++ [c]) rest line (col + 1) (pos + 1)
      (fun x hx => hclean x (by simp [hx])) hlen2]
    have harr : (acc ++ [c]) ++ cs = acc ++ c :: cs := by simp
    have hc : col + 1 + cs.length + 1 = col + (c :: cs).length + 1 := by
      simp only [List.length_cons]; omega
    have hp : pos + 1 + cs.length + 1 = pos + (c :: cs).length + 1 := by
      simp only [List.length_cons]; omega
    rw [harr, hc, hp]

theorem stringLitLoop_overLimit (q : Char) (_hq : q = '"' ∨ q = '\'') :
    ∀ (content acc tail : List Char) (line col pos : Nat),
      (∀ ch ∈ content, ch ≠ q ∧ ch ≠ '\\' ∧ ch ≠ '\n') →
      acc.length ≤ 64 * 1024 →
      64 * 1024 < acc.length + content.length →
      stringLitLoop q (content ++ tail) acc line col pos =
        .error (formatError "String literal exceeds 64 KiB limit" line
          (col + (64 * 1024 + 1 - acc.length))) := by
  intro content
  induction content with
  | nil =>
    intro acc tail line col pos hclean hacc hbig
    simp only [List.length_nil] at hbig
    omega
  | cons c cs ih =>
    intro acc tail line col pos hclean hacc hbig
    obtain ⟨hc1, hc2, hc3⟩ := hclean c (by simp)
    rw [List.cons_append, stringLitLoop_plain _ _ _ _ _ _ _ hc3 hc1 hc2]
    by_cases hfull : 64 * 1024 < (acc ++ [c]).length
    · rw [if_pos hfull]
      have : acc.length = 64 * 1024 := by
        simp only [List.length_append, List.length_cons, List.length_nil] at hfull
        omega
      rw [this]
      norm_num
    · rw [if_neg hfull]
      rw [ih (acc ++ [c]) tail line (col + 1) (pos + 1)
        (fun x hx => hclean x (by simp [hx]))
        (by simp only [List.length_append, List.length_cons, List.length_nil] at hfull ⊢
            omega)
        (by
          simp only [List.length_append, List.length_cons, List.length_nil]
          simp only [List.length_cons] at hbig
          omega)]
      have hlenc : (((acc ++ [c]).length : Nat) : Int) = (acc.length : Int) + 1 := by
        simp [List.length_append]
      have hInt : ((((col + 1) : Nat) : Int) + (64 * 1024 + 1 - ((acc ++ [c]).length : Int)) :
          Int) = (col : Int) + (64 * 1024 + 1 - (acc.length : Int)) := by
        rw [hlenc]
        push_cast
        ring
      rw [hInt]

theorem stringLitLoop_escPairs :
    ∀ (n : Nat) (acc rest : List Char) (line col pos : Nat),
      acc.length + n ≤ 64 * 1024 →
      stringLitLoop '"' (escPairs n ++ '"' :: rest) acc line col pos =
        .ok (makeToken .STRING (String.mk (acc ++ List.replicate n '\\')) line
          (col + 2 * n + 1) (pos + 2 * n + 1), rest, line, col + 2 * n + 1,
          pos + 2 * n + 1) := by
  intro n
  induction n with
  | zero =>
    intro acc rest line col pos hlen
    simp only [escPairs, List.nil_append, List.replicate_zero, List.append_nil,
      Nat.mul_zero, Nat.add_zero]
    exact stringLitLoop_close _ _ _ _ _ _ (by decide)
  | succ n ih =>
    intro acc rest line col pos hlen
    show stringLitLoop '"' ('\\' :: '\\' :: (escPairs n ++ '"' :: rest)) acc line col pos = _
    rw [stringLitLoop_esc_ok _ _ _ _ _ _ _ _ ⟨by decide, by decide, by decide⟩ (by rfl)]
    have hA : ¬64 * 1024 < (acc ++ ['\\']).length := by
      simp only [List.length_append, List.length_cons, List.length_nil]
      omega
    rw [if_neg hA]
    rw [ih (acc ++ ['\\']) rest line (col + 2) (pos + 2)
      (by simp only [List.length_append, List.length_cons, List.length_nil]; omega)]
    have harr : (acc ++ ['\\']) ++ List.replicate n '\\' = acc ++ List.replicate (n + 1) '\\' := by
      simp [List.replicate_succ]
    have hc : col + 2 + 2 * n + 1 = col + 2 * (n + 1) + 1 := by omega
    have hp : pos + 2 + 2 * n + 1 = pos + 2 * (n + 1) + 1 := by omega
    rw [harr, hc, hp]





example :
    (∀ (content rest : List Char) (line col pos : Nat),
      (∀ ch ∈ content, ch ≠ '"' ∧ ch ≠ '\\' ∧ ch ≠ '\n') →
      content.length = 64 * 1024 →
      dispatchToken ('"' :: (content ++ '"' :: rest)) line col pos =
        .ok (makeToken .STRING (String.mk content) line (col + (64 * 1024 + 2))
          (pos + (64 * 1024 + 2)), rest, line, col + (64 * 1024 + 2),
          pos + (64 * 1024 + 2))) := by
  intro content rest line col pos hclean hlen
  rw [dispatchToken_quote,
    stringLitLoop_clean '"' (Or.inl rfl) content [] rest line (col + 1) (pos + 1) hclean
      (by simp [hlen])]
  have hc : col + 1 + content.length + 1 = col + (64 * 1024 + 2) := by omega
  have hp : pos + 1 + content.length + 1 = pos + (64 * 1024 + 2) := by omega
  rw [List.nil_append, hc, hp]

example : ([] : List Char).length + 64 * 1024 ≤ 64 * 1024 := by simp

/-- C8: confirmation of the 64 KiB string-literal limit, measured on
the decoded content.  (1) Every string literal the tokenizer accepts
has decoded length at most 65536.  (2) A double-quoted literal whose
(escape-free) content is exactly 65536 bytes tokenizes successfully,
with the decoded content as its value.  (3) One whose content reaches
65537 bytes fails with a `TokenizerError` whose message contains
"String literal exceeds 64 KiB limit".  (4) The limit is measured on
decoded content, not the raw source span: 65536 two-byte `\\\\` escape
sequences — a raw span of 131074 bytes — still tokenize successfully,
decoding to exactly 65536 bytes. -/
theorem C8_string_literal_limit :
    (∀ (l : List Char) (line col pos : Nat) (tok : Token) (r : List Char) (l2 c2 p2 : Nat),
      dispatchToken ('"' :: l) line col pos = .ok (tok, r, l2, c2, p2) →
      tok.value.length ≤ 64 * 1024) ∧
    (∀ (content rest : List Char) (line col pos : Nat),
      (∀ ch ∈ content, ch ≠ '"' ∧ ch ≠ '\\' ∧ ch ≠ '\n') →
      content.length = 64 * 1024 →
      dispatchToken ('"' :: (content ++ '"' :: rest)) line col pos =
        .ok (makeToken .STRING (String.mk content) line (col + (64 * 1024 + 2))
          (pos + (64 * 1024 + 2)), rest, line, col + (64 * 1024 + 2),
          pos + (64 * 1024 + 2))) ∧
    (∀ (content tail : List Char) (line col pos : Nat),
      (∀ ch ∈ content, ch ≠ '"' ∧ ch ≠ '\\' ∧ ch ≠ '\n') →
      content.length = 64 * 1024 + 1 →
      dispatchToken ('"' :: (content ++ tail)) line col pos =
        .error (formatError "String literal exceeds 64 KiB limit" line
          ((col + 1 : Nat) + (64 * 1024 + 1 : Int))) ∧
      strContainsSub (formatError "String literal exceeds 64 KiB limit" line
          ((col + 1 : Nat) + (64 * 1024 + 1 : Int)))
        "String literal exceeds 64 KiB limit" = true) ∧
    (∀ (rest : List Char) (line col pos : Nat),
      (escPairs (64 * 1024)).length = 2 * (64 * 1024) ∧
      dispatchToken ('"' :: (escPairs (64 * 1024) ++ '"' :: rest)) line col pos =
        .ok (makeToken .STRING (String.mk (List.replicate (64 * 1024) '\\')) line
          (col + 1 + 2 * (64 * 1024) + 1) (pos + 1 + 2 * (64 * 1024) + 1), rest, line,
          col + 1 + 2 * (64 * 1024) + 1, pos + 1 + 2 * (64 * 1024) + 1)) := by
  refine ⟨?_, ?_, ?_, ?_⟩
  · intro l line col pos tok r l2 c2 p2 h
    rw [dispatchToken_quote] at h
    exact stringLitLoop_ok_length_aux '"' l.length l [] line (col + 1) (pos + 1)
      tok r l2 c2 p2 (Nat.le_refl _) (Or.inl rfl) (by simp) h
  · intro content rest line col pos hclean hlen
    rw [dispatchToken_quote,
      stringLitLoop_clean '"' (Or.inl rfl) content [] rest line (col + 1) (pos + 1) hclean
        (by simp [hlen])]
    have hc : col + 1 + content.length + 1 = col + (64 * 1024 + 2) := by omega
    have hp : pos + 1 + content.length + 1 = pos + (64 * 1024 + 2) := by omega
    rw [List.nil_append, hc, hp]
  · intro content tail line col pos hclean hlen
    constructor
    · rw [dispatchToken_quote,
        stringLitLoop_overLimit '"' (Or.inl rfl) content [] tail line (col + 1) (pos + 1)
          hclean (by simp) (by simp [hlen])]
      norm_num
    · exact strContainsSub_formatError _ _ _
  · intro rest line col pos
    refine ⟨escPairs_length _, ?_⟩
    rw [dispatchToken_quote]
    have h := stringLitLoop_escPairs (64 * 1024) [] rest line (col + 1) (pos + 1) (by simp)
    rw [List.nil_append] at h
    exact h

/-- C8 witness: the universal parts at the literal `"a"`, at 65536 and
65537 repetitions of `a`, and at 65536 escape pairs. -/
theorem C8_string_literal_limit_witness :
    (({ type := .STRING, value := "a", line := 1, column := 3, offset := 2 } : Token).value.length
      ≤ 64 * 1024) ∧
    (dispatchToken ('"' :: (List.replicate (64 * 1024) 'a' ++ '"' :: [])) 1 1 0 =
      .ok (makeToken .STRING (String.mk (List.replicate (64 * 1024) 'a')) 1 (1 + (64 * 1024 + 2))
        (0 + (64 * 1024 + 2)), [], 1, 1 + (64 * 1024 + 2), 0 + (64 * 1024 + 2))) ∧
    (dispatchToken ('"' :: (List.replicate (64 * 1024 + 1) 'a' ++ [])) 1 1 0 =
      .error (formatError "String literal exceeds 64 KiB limit" 1
        ((1 + 1 : Nat) + (64 * 1024 + 1 : Int)))) ∧
    (dispatchToken ('"' :: (escPairs (64 * 1024) ++ '"' :: [])) 1 1 0 =
      .ok (makeToken .STRING (String.mk (List.replicate (64 * 1024) '\\')) 1
        (1 + 1 + 2 * (64 * 1024) + 1) (0 + 1 + 2 * (64 * 1024) + 1), [], 1,
        1 + 1 + 2 * (64 * 1024) + 1, 0 + 1 + 2 * (64 * 1024) + 1)) := by
  refine ⟨?_, ?_, ?_, ?_⟩
  · exact C8_string_literal_limit.1 "a\"".data 1 1 0
      { type := .STRING, value := "a", line := 1, column := 3, offset := 2 } [] 1 4 3 (by decide)
  · exact C8_string_literal_limit.2.1 (List.replicate (64 * 1024) 'a') [] 1 1 0
      (by intro ch hc; rw [List.eq_of_mem_replicate hc]
          exact ⟨by decide, by decide, by decide⟩)
      (by rw [List.length_replicate])
  · exact (C8_string_literal_limit.2.2.1 (List.replicate (64 * 1024 + 1) 'a') [] 1 1 0
      (by intro ch hc; rw [List.eq_of_mem_replicate hc]
          exact ⟨by decide, by decide, by decide⟩)
      (by rw [List.length_replicate])).1
  · exact (C8_string_literal_limit.2.2.2 [] 1 1 0).2

/-! ## C7 — unquoted `'$'` handling -/

theorem scanWhile_consumed (p : Char → Bool) :
    ∀ (l : List Char) (line col pos : Nat) (ch : Char),
      ch ∈ (scanWhile p l line col pos).1 → p ch
  | [], line, col, pos, ch, h => by simp [scanWhile] at h
  | c :: rest, line, col, pos, ch, h => by
    rw [scanWhile] at h
    split at h
    · rename_i hp
      rcases List.mem_cons.mp h with rfl | h2
      · exact hp
      · exact scanWhile_consumed p rest _ _ _ ch h2
    · simp at h

theorem identChar_not_dollar {ch : Char} (h : isIdentifierChar ch = true) : ch ≠ '$' := by
  intro he; subst he; exact absurd h (by decide)

theorem identChar_not_control {ch : Char} (h : isIdentifierChar ch = true) :
    (decide (ch.toNat < 0x20) || decide (ch.toNat = 0x7F)) = false := by
  simp only [isIdentifierChar, isAlnumC, isAlphaC, isDigitC, Bool.or_eq_true,
    Bool.and_eq_true, decide_eq_true_eq] at h
  simp only [Bool.or_eq_false_iff, decide_eq_false_iff_not, not_lt]
  rcases h with ((((((⟨h1, h2⟩ | ⟨h1, h2⟩) | ⟨h1, h2⟩) | rfl) | rfl) | rfl) | rfl) | rfl
  · have a1 : 97 ≤ ch.toNat := h1
    have a2 : ch.toNat ≤ 122 := h2
    omega
  · have a1 : 65 ≤ ch.toNat := h1
    have a2 : ch.toNat ≤ 90 := h2
    omega
  · have a1 : 48 ≤ ch.toNat := h1
    have a2 : ch.toNat ≤ 57 := h2
    omega
  · exact ⟨by decide, by decide⟩
  · exact ⟨by decide, by decide⟩
  · exact ⟨by decide, by decide⟩
  · exact ⟨by decide, by decide⟩
  · exact ⟨by decide, by decide⟩

theorem validateIdentifier_of_chars (word : List Char) (line col : Nat)
    (hall : ∀ ch ∈ word, isIdentifierChar ch) (hne : word ≠ []) :
    validateIdentifier word line col = .ok () := by
  have hemp : word.isEmpty = false := by
    cases word with | nil => exact absurd rfl hne | cons a b => rfl
  have hnotin : '$' ∉ word := fun hmem => absurd (hall '$' hmem) (by decide)
  have hcontrol : word.any (fun ch => decide (ch.toNat < 0x20) || decide (ch.toNat = 0x7F))
      = false := by
    rw [List.any_eq_false]
    intro ch hc
    simpa using identChar_not_control (hall ch hc)
  simp [validateIdentifier, hemp, hcontrol, hnotin]

theorem parseIdentifierOrKeyword_error (l : List Char) (line col pos : Nat) (m : String)
    (h : parseIdentifierOrKeyword l line col pos = .error m) :
    m = formatError "Zero-length identifier" line col := by
  cases l with
  | nil =>
    simp [parseIdentifierOrKeyword, scanWhile, validateIdentifier] at h
    simpa [formatError] using h.symm
  | cons c rest =>
    by_cases hp : isIdentifierChar c
    · have hword : ∀ ch ∈ (scanWhile isIdentifierChar (c :: rest) line col pos).1,
          isIdentifierChar ch := fun ch hc => scanWhile_consumed _ _ _ _ _ ch hc
      have hne : (scanWhile isIdentifierChar (c :: rest) line col pos).1 ≠ [] := by
        rw [scanWhile, if_pos hp]
        simp
      rcases hs : scanWhile isIdentifierChar (c :: rest) line col pos with
        ⟨word, rest1, l1, c1, p1⟩
      rw [hs] at hword hne
      rw [parseIdentifierOrKeyword, hs] at h
      dsimp only at h hword hne
      rw [validateIdentifier_of_chars _ _ _ hword hne] at h
      exact Except.noConfusion h
    · rw [parseIdentifierOrKeyword, scanWhile, if_neg hp] at h
      simp [validateIdentifier] at h
      simpa [formatError] using h.symm

theorem parseIdentifierOrKeyword_value (l : List Char) (line col pos : Nat) (t : Token)
    (rest : List Char) (l2 c2 p2 : Nat)
    (h : parseIdentifierOrKeyword l line col pos = .ok (t, rest, l2, c2, p2)) :
    ∀ ch ∈ t.value.data, isIdentifierChar ch := by
  have hword : ∀ ch ∈ (scanWhile isIdentifierChar l line col pos).1,
      isIdentifierChar ch := fun ch hc => scanWhile_consumed _ _ _ _ _ ch hc
  rcases hs : scanWhile isIdentifierChar l line col pos with ⟨word, rest1, l1, c1, p1⟩
  rw [hs] at hword
  rw [parseIdentifierOrKeyword, hs] at h
  dsimp only at h hword
  split at h
  · exact Except.noConfusion h
  · injection h with h1
    injection h1 with ht _
    subst ht
    simpa using hword

/-- C7 (amended): an unquoted identifier token can never contain `'$'`
— `scanIdentifier` only consumes `isIdentifierChar` bytes, which exclude
`'$'` and all bytes below 0x20 or equal to 0x7F — so the
`validateIdentifier` rejections (including the "please wrap any text
containing '$' in quotes" message) are unreachable from tokenization,
and the only failure the identifier path can produce is
"Zero-length identifier".  The dollar check itself is present in
`validateIdentifier` (conjunct 3), but a `'$'` reached by `dispatchToken`
is rejected as "Unexpected character '$'" instead (conjunct 4). -/
theorem C7_dollar_amended :
    (∀ (l : List Char) (line col pos : Nat) (t : Token) (rest : List Char) (l2 c2 p2 : Nat),
      parseIdentifierOrKeyword l line col pos = .ok (t, rest, l2, c2, p2) →
      '$' ∉ t.value.data ∧ ∀ ch ∈ t.value.data, isIdentifierChar ch) ∧
    (∀ (l : List Char) (line col pos : Nat) (m : String),
      parseIdentifierOrKeyword l line col pos = .error m →
      m = formatError "Zero-length identifier" line col) ∧
    (∀ (word : List Char) (line col : Nat), word ≠ [] → '$' ∈ word →
      validateIdentifier word line col = .error (formatError
        "Found '$' in unquoted token; please wrap any text containing '$' in quotes"
        line col)) ∧
    (∀ (rest : List Char) (line col pos : Nat),
      dispatchToken ('$' :: rest) line col pos =
        .error (formatError "Unexpected character '$'" line col)) := by
  refine ⟨?_, ?_, ?_, ?_⟩
  · intro l line col pos t rest l2 c2 p2 h
    have hv := parseIdentifierOrKeyword_value l line col pos t rest l2 c2 p2 h
    exact ⟨fun hmem => absurd (hv '$' hmem) (by decide), hv⟩
  · exact parseIdentifierOrKeyword_error
  · intro word line col hne hmem
    have hemp : word.isEmpty = false := by
      cases word with | nil => exact absurd rfl hne | cons a b => rfl
    have hcon : word.contains '$' = true := by
      rw [List.contains_eq_any_beq, List.any_eq_true]
      exact ⟨'$', hmem, by simp⟩
    simp [validateIdentifier, hemp, hmem]
  · intro rest line col pos
    rw [dispatchToken.eq_def]
    simp [isDigitC, isIdentifierStart, isAlphaC]

/-- C7 counterexample: tokenizing `a$b` does fail, but with
"Unexpected character '$'" — the message does not contain "please wrap
any text containing '$' in quotes" as the claim requires. -/
theorem C7_dollar_counterexample :
    (tokenize "a$b".data = .error "Line 1, column 2: Unexpected character '$'") ∧
    (strContainsSub "Line 1, column 2: Unexpected character '$'"
      "please wrap any text containing '$' in quotes" = false) :=
  ⟨by decide, by decide⟩

/-- C7 witness: the amended conjuncts at `ab`, `;`, `a$`, `$`. -/
theorem C7_dollar_amended_witness :
    ('$' ∉ ("ab" : String).data) ∧
    (("Line 1, column 1: Zero-length identifier" : String) =
      formatError "Zero-length identifier" 1 1) ∧
    (validateIdentifier ['a', '$'] 1 3 = .error (formatError
      "Found '$' in unquoted token; please wrap any text containing '$' in quotes" 1 3)) ∧
    (dispatchToken ['$'] 1 1 0 = .error (formatError "Unexpected character '$'" 1 1)) := by
  refine ⟨?_, ?_, ?_, ?_⟩
  · exact (C7_dollar_amended.1 "ab".data 1 1 0
      { type := .IDENTIFIER, value := "ab", line := 1, column := 1, offset := 0 } [] 1 3 2
      (by decide)).1
  · exact C7_dollar_amended.2.1 ";".data 1 1 0 "Line 1, column 1: Zero-length identifier"
      (by decide)
  · exact C7_dollar_amended.2.2.1 ['a', '$'] 1 3 (by decide) (by decide)
  · exact C7_dollar_amended.2.2.2 [] 1 1 0

/-! ## C6 -- token column bookkeeping -/

theorem scanWhile_state (p : Char → Bool) (hp : ∀ ch, p ch = true → ch ≠ '\n') :
    ∀ (l : List Char) (line col pos : Nat),
      (scanWhile p l line col pos).2.2.1 = line ∧
      (scanWhile p l line col pos).2.2.2.1 = col + (scanWhile p l line col pos).1.length ∧
      (scanWhile p l line col pos).2.2.2.2 = pos + (scanWhile p l line col pos).1.length
  | [], line, col, pos => by simp [scanWhile]
  | c :: rest, line, col, pos => by
    rw [scanWhile]
    split
    · rename_i hpc
      have hcn := hp c hpc
      obtain ⟨h1, h2, h3⟩ := scanWhile_state p hp rest line (col + 1) (pos + 1)
      rw [if_neg hcn, if_neg hcn]
      refine ⟨by simpa using h1, ?_, ?_⟩
      · simpa [Nat.add_comm, Nat.add_assoc, Nat.add_left_comm] using h2
      · simpa [Nat.add_comm, Nat.add_assoc, Nat.add_left_comm] using h3
    · simp

theorem scanUnit_ok_fields (l : List Char) (line col pos : Nat) (suf rest : List Char)
    (l2 c2 p2 : Nat) (h : scanUnit l line col pos = .ok (suf, rest, l2, c2, p2)) :
    l2 = line ∧ c2 = col + suf.length := by
  unfold scanUnit at h
  cases l with
  | nil =>
    injection h with h1
    injection h1 with hsuf h2
    injection h2 with hrest h3
    injection h3 with hl h4
    injection h4 with hc hp
    subst hsuf hl hc
    simp
  | cons c rest1 =>
    dsimp only at h
    by_cases ha : isAlphaC c
    · rw [if_pos ha] at h
      cases rest1 with
      | nil =>
        dsimp only at h
        injection h with h1
        injection h1 with hsuf h2
        injection h2 with hrest h3
        injection h3 with hl h4
        injection h4 with hc hp
        subst hsuf hl hc
        simp
      | cons c2' rest2 =>
        dsimp only at h
        by_cases hb : isAlphaC c2'
        · rw [if_pos hb] at h
          exact Except.noConfusion h
        · rw [if_neg hb] at h
          injection h with h1
          injection h1 with hsuf h2
          injection h2 with hrest h3
          injection h3 with hl h4
          injection h4 with hc hp
          subst hsuf hl hc
          simp
    · rw [if_neg ha] at h
      injection h with h1
      injection h1 with hsuf h2
      injection h2 with hrest h3
      injection h3 with hl h4
      injection h4 with hc hp
      subst hsuf hl hc
      simp

theorem identChar_ne_newline {ch : Char} (h : isIdentifierChar ch = true) : ch ≠ '\n' := by
  intro he; subst he; exact absurd h (by decide)

theorem digit_ne_newline {ch : Char} (h : isDigitC ch = true) : ch ≠ '\n' := by
  intro he; subst he; exact absurd h (by decide)

theorem parseIdentifierOrKeyword_fields (l : List Char) (line col pos : Nat) (t : Token)
    (rest : List Char) (l2 c2 p2 : Nat)
    (h : parseIdentifierOrKeyword l line col pos = .ok (t, rest, l2, c2, p2)) :
    t.line = line ∧ t.column = Nat.max 1 col := by
  obtain ⟨hl, hc, hp⟩ := scanWhile_state isIdentifierChar
    (fun ch hch => identChar_ne_newline hch) l line col pos
  rcases hs : scanWhile isIdentifierChar l line col pos with ⟨word, rest1, l1, c1, p1⟩
  rw [hs] at hl hc hp
  dsimp only at hl hc hp
  rw [parseIdentifierOrKeyword, hs] at h
  dsimp only at h
  split at h
  · exact Except.noConfusion h
  · injection h with h1
    injection h1 with ht _
    subst ht
    subst hl
    constructor
    · rfl
    · show Nat.max 1 (c1 - (String.mk word).length) = Nat.max 1 col
      have hwl : (String.mk word).length = word.length := rfl
      rw [hwl, hc]
      congr 1
      omega

theorem parseNumberOrUnit_fields (l : List Char) (line col pos : Nat) (t : Token)
    (rest : List Char) (l2 c2 p2 : Nat)
    (h : parseNumberOrUnit l line col pos = .ok (t, rest, l2, c2, p2)) :
    t.line = line ∧ t.column = Nat.max 1 col := by
  obtain ⟨hl, hc, hp⟩ := scanWhile_state isDigitC
    (fun ch hch => digit_ne_newline hch) l line col pos
  rcases hs : scanWhile isDigitC l line col pos with ⟨ds, rest1, l1, c1, p1⟩
  rw [hs] at hl hc hp
  dsimp only at hl hc hp
  rw [parseNumberOrUnit, hs] at h
  dsimp only at h
  rcases hu : scanUnit rest1 l1 c1 p1 with e | ⟨suf, rest2, lB, cB, pB⟩
  · rw [hu] at h
    exact Except.noConfusion h
  · rw [hu] at h
    obtain ⟨hul, huc⟩ := scanUnit_ok_fields rest1 l1 c1 p1 suf rest2 lB cB pB hu
    injection h with h1
    injection h1 with ht _
    subst ht
    subst hul
    subst hl
    constructor
    · rfl
    · show Nat.max 1 (cB - (String.mk (ds ++ suf)).length) = Nat.max 1 col
      have hwl : (String.mk (ds ++ suf)).length = ds.length + suf.length := by
        show (ds ++ suf).length = _
        simp
      rw [hwl, huc, hc]
      congr 1
      omega

theorem stringLitLoop_ok_type (q : Char) (n : Nat) :
    ∀ (l content : List Char) (line col pos : Nat) (tok : Token) (r : List Char)
      (l2 c2 p2 : Nat),
      l.length ≤ n →
      (q = '"' ∨ q = '\'') →
      stringLitLoop q l content line col pos = .ok (tok, r, l2, c2, p2) →
      tok.type = .STRING := by
  induction n with
  | zero =>
    intro l content line col pos tok r l2 c2 p2 hsz hq h
    have hl : l = [] := List.length_eq_zero.mp (Nat.le_zero.mp hsz)
    subst hl
    rw [stringLitLoop_nil] at h
    exact Except.noConfusion h
  | succ n ih =>
    intro l content line col pos tok r l2 c2 p2 hsz hq h
    have hqn : q ≠ '\n' := by rcases hq with rfl | rfl <;> decide
    cases l with
    | nil =>
      rw [stringLitLoop_nil] at h
      exact Except.noConfusion h
    | cons ch rest =>
      by_cases h1 : ch = '\n'
      · subst h1; rw [stringLitLoop_newline] at h; exact Except.noConfusion h
      by_cases h2 : ch = q
      · subst h2
        rw [stringLitLoop_close _ _ _ _ _ _ hqn] at h
        injection h with h'
        injection h' with htok _
        subst htok
        rfl
      by_cases h3 : ch = '\\'
      · subst h3
        rcases hq with rfl | rfl
        · cases rest with
          | nil =>
            rw [stringLitLoop.eq_def] at h
            simp at h
          | cons e rest2 =>
            cases hesc : escDecode e with
            | none =>
              rw [stringLitLoop_esc_bad _ _ _ _ _ _ _ ⟨by decide, by decide, by decide⟩
                hesc] at h
              exact Except.noConfusion h
            | some d =>
              rw [stringLitLoop_esc_ok _ _ _ _ _ _ _ _ ⟨by decide, by decide, by decide⟩
                hesc] at h
              split at h
              · exact Except.noConfusion h
              · exact ih rest2 (content ++ [d]) line (col + 2) (pos + 2) tok r l2 c2 p2
                  (by simp only [List.length_cons] at hsz ⊢; omega) (Or.inl rfl) h
        · rw [stringLitLoop.eq_def] at h
          simp at h
      · rw [stringLitLoop_plain _ _ _ _ _ _ _ h1 h2 h3] at h
        split at h
        · exact Except.noConfusion h
        · exact ih rest (content ++ [ch]) line (col + 1) (pos + 1) tok r l2 c2 p2
            (by simp only [List.length_cons] at hsz ⊢; omega) hq h

theorem dispatchToken_nonstring_fields (l : List Char) (line col pos : Nat) (t : Token)
    (rest : List Char) (l2 c2 p2 : Nat) (hcol : 1 ≤ col)
    (hns : t.type ≠ TokenType.STRING)
    (h : dispatchToken l line col pos = .ok (t, rest, l2, c2, p2)) :
    t.line = line ∧ t.column = col := by
  have hmax : Nat.max 1 col = col := Nat.max_eq_right hcol
  cases l with
  | nil =>
    rw [dispatchToken.eq_def] at h
    exact Except.noConfusion h
  | cons c rest' =>
    rw [dispatchToken.eq_def] at h
    dsimp only at h
    by_cases hd : isDigitC c = true
    · rw [if_pos hd] at h
      split at h
      · have hf := parseIdentifierOrKeyword_fields _ _ _ _ _ _ _ _ _ h
        exact ⟨hf.1, by rw [hf.2, hmax]⟩
      · have hf := parseNumberOrUnit_fields _ _ _ _ _ _ _ _ _ h
        exact ⟨hf.1, by rw [hf.2, hmax]⟩
    · rw [if_neg hd] at h
      by_cases hi : isIdentifierStart c = true
      · rw [if_pos hi] at h
        have hf := parseIdentifierOrKeyword_fields _ _ _ _ _ _ _ _ _ h
        exact ⟨hf.1, by rw [hf.2, hmax]⟩
      · rw [if_neg hi] at h
        by_cases hq : (c = '"' || c = '\'') = true
        · rw [if_pos hq] at h
          have hty : t.type = TokenType.STRING := by
            refine stringLitLoop_ok_type c rest'.length rest' [] line (col + 1) (pos + 1)
              t rest l2 c2 p2 le_rfl ?_ h
            rcases Bool.or_eq_true _ _ |>.mp hq with h1 | h1
            · exact Or.inl (by exact decide_eq_true_eq.mp h1)
            · exact Or.inr (by exact decide_eq_true_eq.mp h1)
          exact absurd hty hns
        · rw [if_neg hq] at h
          by_cases hb1 : c = Char.ofNat 123
          · rw [if_pos hb1] at h
            injection h with h1
            injection h1 with ht _
            subst ht
            refine ⟨rfl, ?_⟩
            show Nat.max 1 (col + 1 - lbraceStr.length) = col
            have : lbraceStr.length = 1 := rfl
            have h2 : col + 1 - 1 = col := by omega
            rw [this, h2, hmax]
          · rw [if_neg hb1] at h
            by_cases hb2 : c = Char.ofNat 125
            · rw [if_pos hb2] at h
              injection h with h1
              injection h1 with ht _
              subst ht
              refine ⟨rfl, ?_⟩
              show Nat.max 1 (col + 1 - rbraceStr.length) = col
              have : rbraceStr.length = 1 := rfl
              have h2 : col + 1 - 1 = col := by omega
              rw [this, h2, hmax]
            · rw [if_neg hb2] at h
              by_cases hb3 : c = ';'
              · rw [if_pos hb3] at h
                injection h with h1
                injection h1 with ht _
                subst ht
                refine ⟨rfl, ?_⟩
                show Nat.max 1 (col + 1 - (";" : String).length) = col
                have : (";" : String).length = 1 := rfl
                have h2 : col + 1 - 1 = col := by omega
                rw [this, h2, hmax]
              · rw [if_neg hb3] at h
                exact Except.noConfusion h

theorem dispatchToken_string_column (content rest : List Char) (line col pos : Nat)
    (hclean : ∀ ch ∈ content, ch ≠ '"' ∧ ch ≠ '\\' ∧ ch ≠ '\n')
    (hlen : content.length ≤ 64 * 1024) (t : Token) (r : List Char) (l2 c2 p2 : Nat)
    (h : dispatchToken ('"' :: (content ++ '"' :: rest)) line col pos =
      .ok (t, r, l2, c2, p2)) :
    t.type = .STRING ∧ t.value = String.mk content ∧ t.line = line ∧
      t.column = col + 2 := by
  rw [dispatchToken_quote] at h
  rw [stringLitLoop_clean '"' (Or.inl rfl) content [] rest line (col + 1) (pos + 1)
    hclean (by simpa using hlen)] at h
  injection h with h1
  injection h1 with ht _
  subst ht
  refine ⟨rfl, rfl, rfl, ?_⟩
  show Nat.max 1 (col + 1 + content.length + 1 - (String.mk content).length) = col + 2
  have hL : (String.mk content).length = content.length := rfl
  have h2 : col + 1 + content.length + 1 - content.length = col + 2 := by omega
  rw [hL, h2]
  exact Nat.max_eq_right (by omega)

/-- C6: the tokenizer's recorded column does not point at the first character
of a string literal's lexeme. In `host "abc"` the opening quote sits at
column 6 and the first content character at column 7, yet the STRING token
records column 8. -/
theorem C6_column_counterexample :
    (tokenize "host \"abc\"".data).map
        (fun ts => ts.map (fun t => (t.type, t.value, t.line, t.column))) =
      .ok [(TokenType.KEYWORD_HOST, "host", 1, 1), (TokenType.STRING, "abc", 1, 8),
        (TokenType.END_OF_FILE, "", 1, 11)] ∧
    (8 : Nat) ≠ 6 ∧ (8 : Nat) ≠ 7 := by
  refine ⟨by decide, by decide, by decide⟩

/-- C6 (amended): when `dispatchToken` is invoked at the first character of a
lexeme at 1-based column `col`, every non-STRING token it produces records
`line` and `col` exactly; a STRING token produced from an escape-free
double-quoted literal records column `col + 2` (two past the lexeme start),
while its value is the decoded content. -/
theorem C6_token_column :
    (∀ (l : List Char) (line col pos : Nat) (t : Token) (rest : List Char)
        (l2 c2 p2 : Nat), 1 ≤ col → t.type ≠ TokenType.STRING →
        dispatchToken l line col pos = .ok (t, rest, l2, c2, p2) →
        t.line = line ∧ t.column = col) ∧
    (∀ (content rest : List Char) (line col pos : Nat) (t : Token)
        (r : List Char) (l2 c2 p2 : Nat),
        (∀ ch ∈ content, ch ≠ '"' ∧ ch ≠ '\\' ∧ ch ≠ '\n') →
        content.length ≤ 64 * 1024 →
        dispatchToken ('"' :: (content ++ '"' :: rest)) line col pos =
          .ok (t, r, l2, c2, p2) →
        t.type = TokenType.STRING ∧ t.value = String.mk content ∧ t.line = line ∧
          t.column = col + 2) := by
  constructor
  · intro l line col pos t rest l2 c2 p2 hcol hns h
    exact dispatchToken_nonstring_fields l line col pos t rest l2 c2 p2 hcol hns h
  · intro content rest line col pos t r l2 c2 p2 hclean hlen h
    exact dispatchToken_string_column content rest line col pos hclean hlen t r l2 c2 p2 h

/-- C6 witness: both conjuncts of the amended statement applied to concrete
scanner states. -/
theorem C6_token_column_witness :
    ((Token.mk TokenType.SEMICOLON ";" 1 5 9).line = 1 ∧
      (Token.mk TokenType.SEMICOLON ";" 1 5 9).column = 5) ∧
    ((Token.mk TokenType.STRING "abc" 1 8 7).type = TokenType.STRING ∧
      (Token.mk TokenType.STRING "abc" 1 8 7).value = String.mk "abc".data ∧
      (Token.mk TokenType.STRING "abc" 1 8 7).line = 1 ∧
      (Token.mk TokenType.STRING "abc" 1 8 7).column = 6 + 2) :=
  ⟨C6_token_column.1 [';'] 1 5 9 (Token.mk TokenType.SEMICOLON ";" 1 5 9)
      [] 1 6 10 (by decide) (by decide) (by decide),
    C6_token_column.2 "abc".data [] 1 6 5 (Token.mk TokenType.STRING "abc" 1 8 7)
      [] 1 11 10 (by decide) (by decide) (by decide)⟩

/-! ## C5 -- BOM transparency -/

theorem map_eq_error_of_error {a b : Type _} {f : a → b} {x y : Except String a}
    {e : String} (h : Except.map f x = Except.map f y) (hx : x = .error e) :
    y = .error e := by
  subst hx
  cases y with
  | error e2 =>
    simp only [Except.map] at h
    injection h with h1
    rw [h1]
  | ok v => simp only [Except.map] at h; exact Except.noConfusion h

theorem map_eq_ok_of_ok {a b : Type _} {f : a → b} {x y : Except String a}
    {v : a} (h : Except.map f x = Except.map f y) (hx : x = .ok v) :
    ∃ w, y = .ok w ∧ f v = f w := by
  subst hx
  cases y with
  | error e2 => simp only [Except.map] at h; exact Except.noConfusion h
  | ok w =>
    simp only [Except.map] at h
    injection h with h1
    exact ⟨w, rfl, h1⟩

theorem scanWhile_pos (p : Char → Bool) :
    ∀ (l : List Char) (line col pos1 pos2 : Nat),
      (scanWhile p l line col pos1).1 = (scanWhile p l line col pos2).1 ∧
      (scanWhile p l line col pos1).2.1 = (scanWhile p l line col pos2).2.1 ∧
      (scanWhile p l line col pos1).2.2.1 = (scanWhile p l line col pos2).2.2.1 ∧
      (scanWhile p l line col pos1).2.2.2.1 = (scanWhile p l line col pos2).2.2.2.1
  | [], line, col, pos1, pos2 => by simp [scanWhile]
  | c :: rest, line, col, pos1, pos2 => by
    rw [scanWhile, scanWhile]
    split
    · obtain ⟨h1, h2, h3, h4⟩ := scanWhile_pos p rest (if c = '\n' then line + 1 else line)
        (if c = '\n' then 1 else col + 1) (pos1 + 1) (pos2 + 1)
      exact ⟨by simpa using h1, h2, h3, h4⟩
    · exact ⟨rfl, rfl, rfl, rfl⟩

theorem skipLineAux_pos :
    ∀ (l : List Char) (col pos1 pos2 : Nat),
      (skipLineAux l col pos1).1 = (skipLineAux l col pos2).1 ∧
      (skipLineAux l col pos1).2.1 = (skipLineAux l col pos2).2.1
  | [], col, pos1, pos2 => ⟨rfl, rfl⟩
  | c :: rest, col, pos1, pos2 => by
    rw [skipLineAux, skipLineAux]
    split
    · exact ⟨rfl, rfl⟩
    · exact skipLineAux_pos rest (col + 1) (pos1 + 1) (pos2 + 1)

theorem skipMultiLine_pos :
    ∀ (l : List Char) (line col pos1 pos2 : Nat),
      Except.map wsView (skipMultiLine l line col pos1) =
        Except.map wsView (skipMultiLine l line col pos2)
  | [], line, col, pos1, pos2 => rfl
  | c :: rest, line, col, pos1, pos2 => by
    rw [skipMultiLine, skipMultiLine]
    split
    · rfl
    · split
      · exact skipMultiLine_pos rest (line + 1) 1 (pos1 + 1) (pos2 + 1)
      · exact skipMultiLine_pos rest line (col + 1) (pos1 + 1) (pos2 + 1)

theorem scanUnit_pos (l : List Char) (line col pos1 pos2 : Nat) :
    Except.map suView (scanUnit l line col pos1) =
      Except.map suView (scanUnit l line col pos2) := by
  cases l with
  | nil => rfl
  | cons c rest =>
    rw [scanUnit.eq_def, scanUnit.eq_def]
    dsimp only
    by_cases hc : isAlphaC c = true
    · rw [if_pos hc, if_pos hc]
      cases rest with
      | nil => rfl
      | cons c2 r2 =>
        dsimp only
        by_cases h2 : isAlphaC c2 = true
        · rw [if_pos h2, if_pos h2]
        · rw [if_neg h2, if_neg h2]; rfl
    · rw [if_neg hc, if_neg hc]; rfl

theorem parseIdentifierOrKeyword_pos (l : List Char) (line col pos1 pos2 : Nat) :
    Except.map scanResView (parseIdentifierOrKeyword l line col pos1) =
      Except.map scanResView (parseIdentifierOrKeyword l line col pos2) := by
  obtain ⟨h1, h2, h3, h4⟩ := scanWhile_pos isIdentifierChar l line col pos1 pos2
  rw [parseIdentifierOrKeyword, parseIdentifierOrKeyword]
  rcases hs1 : scanWhile isIdentifierChar l line col pos1 with ⟨w1, r1, l1, c1, p1⟩
  rcases hs2 : scanWhile isIdentifierChar l line col pos2 with ⟨w2, r2, l2, c2, p2⟩
  rw [hs1, hs2] at h1 h2 h3 h4
  dsimp only at h1 h2 h3 h4
  subst h1; subst h2; subst h3; subst h4
  dsimp only
  cases hv : validateIdentifier w1 l1 c1 with
  | error e => simp only [hv]
  | ok u => simp only [hv]; rfl

theorem parseNumberOrUnit_pos (l : List Char) (line col pos1 pos2 : Nat) :
    Except.map scanResView (parseNumberOrUnit l line col pos1) =
      Except.map scanResView (parseNumberOrUnit l line col pos2) := by
  obtain ⟨h1, h2, h3, h4⟩ := scanWhile_pos isDigitC l line col pos1 pos2
  rw [parseNumberOrUnit, parseNumberOrUnit]
  rcases hs1 : scanWhile isDigitC l line col pos1 with ⟨w1, r1, l1, c1, p1⟩
  rcases hs2 : scanWhile isDigitC l line col pos2 with ⟨w2, r2, l2, c2, p2⟩
  rw [hs1, hs2] at h1 h2 h3 h4
  dsimp only at h1 h2 h3 h4
  subst h1; subst h2; subst h3; subst h4
  dsimp only
  have hu := scanUnit_pos r1 l1 c1 p1 p2
  rcases hu1 : scanUnit r1 l1 c1 p1 with e | ⟨suf1, rest1, la1, ca1, pa1⟩
  · have hu2 := map_eq_error_of_error hu hu1
    rw [hu2]
  · obtain ⟨w, hw, hview⟩ := map_eq_ok_of_ok hu hu1
    rcases w with ⟨suf2, rest2, la2, ca2, pa2⟩
    rw [hw]
    dsimp only
    simp only [suView, Prod.mk.injEq] at hview
    obtain ⟨e1, e2, e3, e4⟩ := hview
    subst e1; subst e2; subst e3; subst e4
    rfl

theorem stringLitLoop_pos (q : Char) (hq : q = '"' ∨ q = '\'') (n : Nat) :
    ∀ (l content : List Char) (line col pos1 pos2 : Nat),
      l.length ≤ n →
      Except.map scanResView (stringLitLoop q l content line col pos1) =
        Except.map scanResView (stringLitLoop q l content line col pos2) := by
  have hqn : q ≠ '\n' := by rcases hq with rfl | rfl <;> decide
  induction n with
  | zero =>
    intro l content line col pos1 pos2 hsz
    have hl : l = [] := List.length_eq_zero.mp (Nat.le_zero.mp hsz)
    subst hl
    rfl
  | succ n ih =>
    intro l content line col pos1 pos2 hsz
    cases l with
    | nil => rfl
    | cons ch rest =>
      by_cases h1 : ch = '\n'
      · subst h1
        rw [stringLitLoop_newline, stringLitLoop_newline]
      by_cases h2 : ch = q
      · subst h2
        rw [stringLitLoop_close _ _ _ _ _ _ hqn, stringLitLoop_close _ _ _ _ _ _ hqn]
        rfl
      by_cases h3 : ch = '\\'
      · subst h3
        rcases hq with rfl | rfl
        · cases rest with
          | nil =>
            rw [stringLitLoop.eq_def, stringLitLoop.eq_def]
            simp
          | cons e rest2 =>
            cases hesc : escDecode e with
            | none =>
              rw [stringLitLoop_esc_bad _ _ _ _ _ _ _ ⟨by decide, by decide, by decide⟩ hesc,
                stringLitLoop_esc_bad _ _ _ _ _ _ _ ⟨by decide, by decide, by decide⟩ hesc]
            | some d =>
              rw [stringLitLoop_esc_ok _ _ _ _ _ _ _ _ ⟨by decide, by decide, by decide⟩ hesc,
                stringLitLoop_esc_ok _ _ _ _ _ _ _ _ ⟨by decide, by decide, by decide⟩ hesc]
              by_cases hlim : 64 * 1024 < (content ++ [d]).length
              · rw [if_pos hlim, if_pos hlim]
              · rw [if_neg hlim, if_neg hlim]
                exact ih rest2 (content ++ [d]) line (col + 2) (pos1 + 2) (pos2 + 2)
                  (by simp only [List.length_cons] at hsz ⊢; omega)
        · rw [stringLitLoop.eq_def, stringLitLoop.eq_def]
          simp
      · rw [stringLitLoop_plain _ _ _ _ _ _ _ h1 h2 h3,
          stringLitLoop_plain _ _ _ _ _ _ _ h1 h2 h3]
        by_cases hlim : 64 * 1024 < (content ++ [ch]).length
        · rw [if_pos hlim, if_pos hlim]
        · rw [if_neg hlim, if_neg hlim]
          exact ih rest (content ++ [ch]) line (col + 1) (pos1 + 1) (pos2 + 1)
            (by simp only [List.length_cons] at hsz ⊢; omega)

theorem dispatchToken_pos (l : List Char) (line col pos1 pos2 : Nat) :
    Except.map scanResView (dispatchToken l line col pos1) =
      Except.map scanResView (dispatchToken l line col pos2) := by
  cases l with
  | nil => rfl
  | cons c rest =>
    rw [dispatchToken.eq_def, dispatchToken.eq_def]
    dsimp only
    by_cases hd : isDigitC c = true
    · rw [if_pos hd, if_pos hd]
      by_cases hbr : (looksLikeIpAddress (c :: rest) ||
          (!isDigitC (rest.headD (Char.ofNat 0)) &&
            isIdentifierChar (rest.headD (Char.ofNat 0)))) = true
      · rw [if_pos hbr, if_pos hbr]
        exact parseIdentifierOrKeyword_pos (c :: rest) line col pos1 pos2
      · rw [if_neg hbr, if_neg hbr]
        exact parseNumberOrUnit_pos (c :: rest) line col pos1 pos2
    · rw [if_neg hd, if_neg hd]
      by_cases hi : isIdentifierStart c = true
      · rw [if_pos hi, if_pos hi]
        exact parseIdentifierOrKeyword_pos (c :: rest) line col pos1 pos2
      · rw [if_neg hi, if_neg hi]
        by_cases hq : (c = '"' || c = '\'') = true
        · rw [if_pos hq, if_pos hq]
          refine stringLitLoop_pos c ?_ rest.length rest [] line (col + 1)
            (pos1 + 1) (pos2 + 1) le_rfl
          rcases Bool.or_eq_true _ _ |>.mp hq with h1 | h1
          · exact Or.inl (decide_eq_true_eq.mp h1)
          · exact Or.inr (decide_eq_true_eq.mp h1)
        · rw [if_neg hq, if_neg hq]
          by_cases hb1 : c = Char.ofNat 123
          · rw [if_pos hb1, if_pos hb1]; rfl
          · rw [if_neg hb1, if_neg hb1]
            by_cases hb2 : c = Char.ofNat 125
            · rw [if_pos hb2, if_pos hb2]; rfl
            · rw [if_neg hb2, if_neg hb2]
              by_cases hb3 : c = ';'
              · rw [if_pos hb3, if_pos hb3]; rfl
              · rw [if_neg hb3, if_neg hb3]

theorem skipWhitespaceAndComments_pos :
    ∀ (fuel : Nat) (l : List Char) (line col pos1 pos2 : Nat),
      Except.map wsView (skipWhitespaceAndComments fuel l line col pos1) =
        Except.map wsView (skipWhitespaceAndComments fuel l line col pos2)
  | 0, _, _, _, _, _ => rfl
  | fuel + 1, l, line, col, pos1, pos2 => by
    cases l with
    | nil => rfl
    | cons c rest =>
      rw [skipWhitespaceAndComments.eq_def, skipWhitespaceAndComments.eq_def]
      dsimp only
      by_cases h1 : c = '\r'
      · rw [if_pos h1, if_pos h1]
        exact skipWhitespaceAndComments_pos fuel rest line col (pos1 + 1) (pos2 + 1)
      rw [if_neg h1, if_neg h1]
      by_cases h2 : c = '\n'
      · rw [if_pos h2, if_pos h2]
        exact skipWhitespaceAndComments_pos fuel rest (line + 1) 1 (pos1 + 1) (pos2 + 1)
      rw [if_neg h2, if_neg h2]
      by_cases h3 : isSpaceC c = true
      · rw [if_pos h3, if_pos h3]
        exact skipWhitespaceAndComments_pos fuel rest line (col + 1) (pos1 + 1) (pos2 + 1)
      rw [if_neg h3, if_neg h3]
      by_cases h4 : (c = '/' && rest.headD (Char.ofNat 0) = '/') = true
      · rw [if_pos h4, if_pos h4]
        obtain ⟨e1, e2⟩ := skipLineAux_pos rest.tail (col + 2) (pos1 + 2) (pos2 + 2)
        rw [e1, e2]
        exact skipWhitespaceAndComments_pos fuel _ line _
          (skipLineAux rest.tail (col + 2) (pos1 + 2)).2.2
          (skipLineAux rest.tail (col + 2) (pos2 + 2)).2.2
      rw [if_neg h4, if_neg h4]
      by_cases h5 : c = '#'
      · rw [if_pos h5, if_pos h5]
        obtain ⟨e1, e2⟩ := skipLineAux_pos rest (col + 1) (pos1 + 1) (pos2 + 1)
        rw [e1, e2]
        exact skipWhitespaceAndComments_pos fuel _ line _
          (skipLineAux rest (col + 1) (pos1 + 1)).2.2
          (skipLineAux rest (col + 1) (pos2 + 1)).2.2
      rw [if_neg h5, if_neg h5]
      by_cases h6 : (c = '/' && rest.headD (Char.ofNat 0) = '*') = true
      · rw [if_pos h6, if_pos h6]
        have hm := skipMultiLine_pos rest.tail line (col + 2) (pos1 + 2) (pos2 + 2)
        rcases hm1 : skipMultiLine rest.tail line (col + 2) (pos1 + 2) with e | ⟨r1, la1, ca1, pa1⟩
        · have hm2 := map_eq_error_of_error hm hm1
          rw [hm2]
        · obtain ⟨w, hw, hview⟩ := map_eq_ok_of_ok hm hm1
          rcases w with ⟨r2, la2, ca2, pa2⟩
          rw [hw]
          dsimp only
          simp only [wsView, Prod.mk.injEq] at hview
          obtain ⟨e1, e2, e3⟩ := hview
          subst e1; subst e2; subst e3
          exact skipWhitespaceAndComments_pos fuel r1 la1 ca1 pa1 pa2
      rw [if_neg h6, if_neg h6]
      rfl

theorem tokenizeLoop_pos :
    ∀ (fuel : Nat) (l : List Char) (line col pos1 pos2 : Nat) (acc1 acc2 : List Token),
      acc1.map tokenView = acc2.map tokenView →
      Except.map loopView (tokenizeLoop fuel l line col pos1 acc1) =
        Except.map loopView (tokenizeLoop fuel l line col pos2 acc2)
  | 0, _, _, _, _, _, _, _, _ => rfl
  | fuel + 1, l, line, col, pos1, pos2, acc1, acc2, hacc => by
    cases l with
    | nil =>
      rw [tokenizeLoop.eq_def, tokenizeLoop.eq_def]
      dsimp only [Except.map, loopView]
      rw [hacc]
    | cons c rest =>
      rw [tokenizeLoop.eq_def, tokenizeLoop.eq_def]
      dsimp only
      have hws := skipWhitespaceAndComments_pos ((c :: rest).length + 1) (c :: rest)
        line col pos1 pos2
      rcases hw1 : skipWhitespaceAndComments ((c :: rest).length + 1) (c :: rest)
          line col pos1 with e | ⟨l1, la1, ca1, pa1⟩
      · have hw2 := map_eq_error_of_error hws hw1
        rw [hw2]
      · obtain ⟨w, hw, hview⟩ := map_eq_ok_of_ok hws hw1
        rcases w with ⟨l2, la2, ca2, pa2⟩
        rw [hw]
        dsimp only
        simp only [wsView, Prod.mk.injEq] at hview
        obtain ⟨e1, e2, e3⟩ := hview
        subst e1; subst e2; subst e3
        cases l1 with
        | nil =>
          dsimp only [Except.map, loopView]
          rw [hacc]
        | cons d rest1 =>
          dsimp only
          have hdp := dispatchToken_pos (d :: rest1) la1 ca1 pa1 pa2
          rcases hd1 : dispatchToken (d :: rest1) la1 ca1 pa1 with e | ⟨t1, l3, lb1, cb1, pb1⟩
          · have hd2 := map_eq_error_of_error hdp hd1
            rw [hd2]
          · obtain ⟨w, hw2, hview2⟩ := map_eq_ok_of_ok hdp hd1
            rcases w with ⟨t2, l4, lb2, cb2, pb2⟩
            rw [hw2]
            dsimp only
            simp only [scanResView, Prod.mk.injEq] at hview2
            obtain ⟨f1, f2, f3, f4⟩ := hview2
            subst f2; subst f3; subst f4
            refine tokenizeLoop_pos fuel l3 lb1 cb1 pb1 pb2 (acc1 ++ [t1]) (acc2 ++ [t2]) ?_
            rw [List.map_append, List.map_append, hacc]
            simp only [List.map_cons, List.map_nil, f1]

/-- C5: prefixing a UTF-8 BOM is not transparent for every input: if the
input itself begins with the BOM bytes, only one copy is stripped and the
second makes tokenization fail, while the BOM-free run succeeds. -/
theorem C5_bom_counterexample :
    (tokenize (bomChars ++ bomChars)).map (List.map tokenView) ≠
      (tokenize bomChars).map (List.map tokenView) := by decide

/-- C5 (amended): for every input that does not itself start with the BOM
byte sequence, tokenizing the BOM-prefixed input yields the same token
stream as tokenizing the input alone in kinds, lexemes, lines and columns
(byte offsets may differ). -/
theorem C5_bom_transparent (s : List Char) (hs : s.take 3 ≠ bomChars) :
    (tokenize (bomChars ++ s)).map (List.map tokenView) =
      (tokenize s).map (List.map tokenView) := by
  rw [tokenize, tokenize]
  have hb1 : skipUtf8BOM (bomChars ++ s) = (s, 3) := by
    rw [skipUtf8BOM]
    have ht : (bomChars ++ s).take 3 = bomChars := by
      have h3 : bomChars.length = 3 := rfl
      rw [← h3, List.take_left]
    have hd : (bomChars ++ s).drop 3 = s := by
      have h3 : bomChars.length = 3 := rfl
      rw [← h3, List.drop_left]
    rw [if_pos ht, hd]
  have hb2 : skipUtf8BOM s = (s, 0) := by
    rw [skipUtf8BOM, if_neg hs]
  rw [hb1, hb2]
  dsimp only
  have h := tokenizeLoop_pos (s.length + 1) s 1 1 3 0 [] [] rfl
  rcases ht1 : tokenizeLoop (s.length + 1) s 1 1 3 [] with e | ⟨toks1, l1, c1, p1⟩
  · have ht2 := map_eq_error_of_error h ht1
    rw [ht2]
  · obtain ⟨w, hw, hview⟩ := map_eq_ok_of_ok h ht1
    rcases w with ⟨toks2, l2, c2, p2⟩
    rw [hw]
    dsimp only [Except.map]
    simp only [loopView, Prod.mk.injEq] at hview
    obtain ⟨e1, e2, e3⟩ := hview
    subst e2; subst e3
    rw [List.map_append, List.map_append, e1]
    rfl

/-- C5 witness: the amended transparency theorem applied to the input `a`. -/
theorem C5_bom_transparent_witness :
    "a".data.take 3 ≠ bomChars ∧
      (tokenize (bomChars ++ "a".data)).map (List.map tokenView) =
        (tokenize "a".data).map (List.map tokenView) :=
  ⟨by decide, C5_bom_transparent "a".data (by decide)⟩

/-! ## C4 -- duplicate directive detection -/

theorem serverLoopT_duplicate (fuel : Nat) (ts : List Token) (pos : Nat)
    (seen : List String) (srv : Server) (t : Token)
    (h1 : ts.get? pos = some t) (h2 : isAtEndT ts pos = false)
    (h3 : t.type ≠ TokenType.RBRACE) (h4 : t.type ≠ TokenType.KEYWORD_LOCATION)
    (h5 : strLower t.value ∈ seen) (h6 : strLower t.value ∉ repeatableServer) :
    serverLoopT (fuel + 1) ts pos seen srv =
      .error (.synE (formatError ("Duplicate directive: '" ++ strLower t.value ++ "'")
        t.line t.column)) := by
  rw [serverLoopT]
  rw [if_neg (by rw [h2]; exact Bool.false_ne_true), h1]
  dsimp only
  rw [if_neg h3, if_neg h4]
  have hchk : (checkDuplicateDirective (strLower t.value) seen repeatableServer).1 = false := by
    rw [checkDuplicateDirective]
    rw [if_neg h6, if_pos h5]
  rw [hchk]
  rw [if_neg (fun h => Bool.false_ne_true h)]

theorem locationLoopT_duplicate (fuel : Nat) (ts : List Token) (pos : Nat)
    (seen : List String) (loc : Location) (t : Token)
    (h1 : ts.get? pos = some t) (h2 : isAtEndT ts pos = false)
    (h3 : t.type ≠ TokenType.RBRACE)
    (h5 : strLower t.value ∈ seen) (h6 : strLower t.value ∉ repeatableLocation) :
    locationLoopT (fuel + 1) ts pos seen loc =
      .error (.synE (formatError ("Duplicate directive: '" ++ strLower t.value ++ "'")
        t.line t.column)) := by
  rw [locationLoopT]
  rw [if_neg (by rw [h2]; exact Bool.false_ne_true), h1]
  dsimp only
  rw [if_neg h3]
  have hchk : (checkDuplicateDirective (strLower t.value) seen repeatableLocation).1 = false := by
    rw [checkDuplicateDirective]
    rw [if_neg h6, if_pos h5]
  rw [hchk]
  rw [if_neg (fun h => Bool.false_ne_true h)]

/-- C4: duplicate-directive detection.  `checkDuplicateDirective` rejects a
name exactly when it is neither repeatable nor fresh in the current block;
the server and location directive loops fail on such a second occurrence
with a SyntaxError naming the directive and pointing at the second
occurrence's line and column; repeatable directives (`error_page` in server
blocks, `methods` in location blocks) accumulate; and the seen-set is per
block, so the same directive may appear once in each of two blocks.  Name
comparison happens after lowercasing. -/
theorem C4_duplicate_directives :
    (∀ (name : String) (seen rep : List String),
        (checkDuplicateDirective name seen rep).1 = false ↔
          (name ∉ rep ∧ name ∈ seen)) ∧
    (∀ (fuel : Nat) (ts : List Token) (pos : Nat) (seen : List String) (srv : Server)
        (t : Token), ts.get? pos = some t → isAtEndT ts pos = false →
        t.type ≠ TokenType.RBRACE → t.type ≠ TokenType.KEYWORD_LOCATION →
        strLower t.value ∈ seen → strLower t.value ∉ repeatableServer →
        serverLoopT (fuel + 1) ts pos seen srv =
          .error (.synE (formatError ("Duplicate directive: '" ++ strLower t.value ++ "'")
            t.line t.column))) ∧
    (∀ (fuel : Nat) (ts : List Token) (pos : Nat) (seen : List String) (loc : Location)
        (t : Token), ts.get? pos = some t → isAtEndT ts pos = false →
        t.type ≠ TokenType.RBRACE →
        strLower t.value ∈ seen → strLower t.value ∉ repeatableLocation →
        locationLoopT (fuel + 1) ts pos seen loc =
          .error (.synE (formatError ("Duplicate directive: '" ++ strLower t.value ++ "'")
            t.line t.column))) ∧
    (parseConfigFull "server { host a; host b; }".data =
      .error (.syntaxE "Line 1, column 18: Duplicate directive: 'host'")) ∧
    (parseConfigFull "server { HOST a; host b; }".data =
      .error (.syntaxE "Line 1, column 18: Duplicate directive: 'host'")) ∧
    ((parseConfigFull "server { error_page 404 /a; error_page 500 /b; }".data).map
        (fun c => c.servers.map (fun (s : Server) => s.errorPages)) =
      .ok [[(404, "/a"), (500, "/b")]]) ∧
    ((parseConfigFull "server { location /a { methods GET; methods POST; } }".data).map
        (fun c => c.servers.map (fun (s : Server) =>
          s.locations.map (fun (l : Location) => l.methods))) =
      .ok [[["GET", "POST"]]]) ∧
    ((parseConfigFull "server { host a; } server { host b; }".data).map
        (fun c => c.servers.map (fun (s : Server) => s.host)) =
      .ok ["a", "b"]) := by
  refine ⟨?_, ?_, ?_, by decide, by decide, by decide, by rfl, by decide⟩
  · intro name seen rep
    rw [checkDuplicateDirective]
    by_cases h1 : name ∈ rep
    · rw [if_pos h1]; simp [h1]
    · rw [if_neg h1]
      by_cases h2 : name ∈ seen
      · rw [if_pos h2]; simp [h1, h2]
      · rw [if_neg h2]; simp [h1, h2]
  · intro fuel ts pos seen srv t h1 h2 h3 h4 h5 h6
    exact serverLoopT_duplicate fuel ts pos seen srv t h1 h2 h3 h4 h5 h6
  · intro fuel ts pos seen loc t h1 h2 h3 h5 h6
    exact locationLoopT_duplicate fuel ts pos seen loc t h1 h2 h3 h5 h6

/-- C4 witness: the server-loop conjunct applied to a concrete token list in
which the directive name `host` has already been seen in the block. -/
theorem C4_duplicate_directives_witness :
    ([Token.mk TokenType.KEYWORD_HOST "host" 1 18 17].get? 0 =
        some (Token.mk TokenType.KEYWORD_HOST "host" 1 18 17)) ∧
      serverLoopT 1 [Token.mk TokenType.KEYWORD_HOST "host" 1 18 17] 0 ["host"] {} =
        .error (.synE (formatError
          ("Duplicate directive: '" ++ strLower (Token.value
            (Token.mk TokenType.KEYWORD_HOST "host" 1 18 17)) ++ "'") 1 18)) :=
  ⟨rfl, C4_duplicate_directives.2.1 0 [Token.mk TokenType.KEYWORD_HOST "host" 1 18 17]
    0 ["host"] {} (Token.mk TokenType.KEYWORD_HOST "host" 1 18 17)
    rfl (by decide) (by decide) (by decide) (by decide) (by decide)⟩

/-! ## C1 -- parse-level invariants -/

theorem insertSet_mem {m x : String} {s : List String} (h : m ∈ insertSet x s) :
    m = x ∨ m ∈ s := by
  induction s with
  | nil =>
    rw [insertSet] at h
    rcases List.mem_singleton.mp h with rfl
    exact Or.inl rfl
  | cons y ys ih =>
    rw [insertSet] at h
    split at h
    · rcases List.mem_cons.mp h with rfl | h2
      · exact Or.inl rfl
      · exact Or.inr h2
    · split at h
      · exact Or.inr h
      · rcases List.mem_cons.mp h with rfl | h2
        · exact Or.inr (List.mem_cons_self _ _)
        · rcases ih h2 with h3 | h3
          · exact Or.inl h3
          · exact Or.inr (List.mem_cons_of_mem _ h3)

theorem applyMethods_good (line col : Int) :
    ∀ (ms : List String) (loc loc' : Location),
      applyMethods line col loc ms = .ok loc' →
      GoodLocation loc →
      GoodLocation loc' ∧ loc'.autoindex = loc.autoindex
  | [], loc, loc', h, hg => by
    rw [applyMethods] at h
    injection h with h1
    subst h1
    exact ⟨hg, rfl⟩
  | m :: ms, loc, loc', h, hg => by
    rw [applyMethods] at h
    split at h
    · rename_i hm
      have := applyMethods_good line col ms
        { loc with methods := insertSet m loc.methods } loc' h ?_
      · exact this
      · intro m2 hm2
        rcases insertSet_mem hm2 with rfl | h2
        · exact hm
        · exact hg m2 h2
    · exact Except.noConfusion h

theorem applyMethods_autoindex (line col : Int) :
    ∀ (ms : List String) (loc loc' : Location),
      applyMethods line col loc ms = .ok loc' →
      loc'.autoindex = loc.autoindex
  | [], loc, loc', h => by
    rw [applyMethods] at h
    injection h with h1
    subst h1
    rfl
  | m :: ms, loc, loc', h => by
    rw [applyMethods] at h
    split at h
    · exact applyMethods_autoindex line col ms
        { loc with methods := insertSet m loc.methods } loc' h
    · exact Except.noConfusion h

theorem applyErrorPages_fields (uri : String) :
    ∀ (cs : List String) (s s' : Server),
      applyErrorPages uri s cs = .ok s' →
      s'.port = s.port ∧ s'.locations = s.locations
  | [], s, s', h => by
    rw [applyErrorPages] at h
    injection h with h1
    subst h1
    exact ⟨rfl, rfl⟩
  | c :: cs, s, s', h => by
    rw [applyErrorPages] at h
    split at h
    · exact Except.noConfusion h
    · rename_i code hcode
      have h2 := applyErrorPages_fields uri cs
        { s with errorPages := mapSet code uri s.errorPages } s' h
      exact ⟨h2.1, h2.2⟩

theorem applyServerDirective_good (name : String) (srv : Server) (v : List String)
    (line col : Int) (srv' : Server)
    (h : applyServerDirective name srv v line col = some (.ok srv'))
    (hg : GoodServer srv) : GoodServer srv' := by
  rw [applyServerDirective.eq_def] at h
  split at h
  · -- listen
    injection h with h1
    split at h1
    any_goals exact Except.noConfusion h1
    split at h1
    any_goals exact Except.noConfusion h1
    split at h1
    any_goals exact Except.noConfusion h1
    rename_i hrange
    injection h1 with h2
    subst h2
    simp only [Bool.or_eq_true, decide_eq_true_eq, not_or] at hrange
    refine ⟨?_, ?_, hg.2.2⟩ <;> (dsimp only; omega)
  · split at h
    · -- host
      injection h with h1
      split at h1
      any_goals exact Except.noConfusion h1
      injection h1 with h2
      subst h2
      exact hg
    · split at h
      · -- server_name
        injection h with h1
        split at h1
        any_goals exact Except.noConfusion h1
        injection h1 with h2
        subst h2
        exact hg
      · split at h
        · -- client_max_body_size
          injection h with h1
          split at h1
          any_goals exact Except.noConfusion h1
          split at h1
          any_goals exact Except.noConfusion h1
          injection h1 with h2
          subst h2
          exact hg
        · split at h
          · -- error_page
            injection h with h1
            split at h1
            any_goals exact Except.noConfusion h1
            have h2 := applyErrorPages_fields (v.getLast?.getD "") v.dropLast srv srv' h1
            refine ⟨?_, ?_, ?_⟩
            · rw [h2.1]; exact hg.1
            · rw [h2.1]; exact hg.2.1
            · rw [h2.2]; exact hg.2.2
          · exact Option.noConfusion h

theorem applyLocationDirective_good (name : String) (loc : Location) (v : List String)
    (line col : Int) (loc' : Location)
    (h : applyLocationDirective name loc v line col = some (.ok loc')) :
    (GoodLocation loc → GoodLocation loc') ∧
      (name ≠ "autoindex" → loc'.autoindex = loc.autoindex) := by
  rw [applyLocationDirective.eq_def] at h
  split at h
  · -- root
    injection h with h1
    split at h1
    any_goals exact Except.noConfusion h1
    injection h1 with h2
    subst h2
    exact ⟨fun hg => hg, fun _ => rfl⟩
  · split at h
    · -- index
      injection h with h1
      split at h1
      any_goals exact Except.noConfusion h1
      injection h1 with h2
      subst h2
      exact ⟨fun hg => hg, fun _ => rfl⟩
    · split at h
      · -- autoindex
        injection h with h1
        split at h1
        any_goals exact Except.noConfusion h1
        split at h1
        · injection h1 with h2
          subst h2
          exact ⟨fun hg => hg, fun hne => absurd ‹name = "autoindex"› hne⟩
        · split at h1
          any_goals exact Except.noConfusion h1
          injection h1 with h2
          subst h2
          exact ⟨fun hg => hg, fun hne => absurd ‹name = "autoindex"› hne⟩
      · split at h
        · -- methods
          injection h with h1
          split at h1
          any_goals exact Except.noConfusion h1
          refine ⟨fun hg => (applyMethods_good line col v loc loc' h1 hg).1,
            fun _ => applyMethods_autoindex line col v loc loc' h1⟩
        · split at h
          · -- upload_store
            injection h with h1
            split at h1
            any_goals exact Except.noConfusion h1
            injection h1 with h2
            subst h2
            exact ⟨fun hg => hg, fun _ => rfl⟩
          · split at h
            · -- cgi_extension
              injection h with h1
              split at h1
              any_goals exact Except.noConfusion h1
              injection h1 with h2
              subst h2
              exact ⟨fun hg => hg, fun _ => rfl⟩
            · split at h
              · -- return
                injection h with h1
                split at h1
                any_goals exact Except.noConfusion h1
                split at h1
                any_goals exact Except.noConfusion h1
                injection h1 with h2
                subst h2
                exact ⟨fun hg => hg, fun _ => rfl⟩
              · exact Option.noConfusion h

theorem applyLocationDirective_autoindex_char (loc : Location) (v : List String)
    (line col : Int) (loc' : Location)
    (h : applyLocationDirective "autoindex" loc v line col = some (.ok loc')) :
    (loc'.autoindex = true ↔ v = ["on"]) ∧ (loc'.autoindex = false ↔ v = ["off"]) := by
  rw [applyLocationDirective.eq_def] at h
  rw [if_neg (by decide : ¬("autoindex" : String) = "root")] at h
  rw [if_neg (by decide : ¬("autoindex" : String) = "index")] at h
  rw [if_pos (rfl : ("autoindex" : String) = "autoindex")] at h
  injection h with h1
  split at h1
  any_goals exact Except.noConfusion h1
  rename_i arg
  split at h1
  · rename_i harg
    injection h1 with h2
    subst h2
    subst harg
    constructor
    · constructor
      · intro h3
        rfl
      · intro h3
        rfl
    · constructor
      · intro h3
        exact Bool.noConfusion h3
      · intro h3
        exact absurd h3 (by decide)
  · split at h1
    · rename_i harg
      injection h1 with h2
      subst h2
      subst harg
      constructor
      · constructor
        · intro h3
          exact Bool.noConfusion h3
        · intro h3
          exact absurd h3 (by decide)
      · constructor
        · intro h3
          rfl
        · intro h3
          rfl
    · exact Except.noConfusion h1

theorem parseLocationDirectiveT_good (fuel : Nat) (ts : List Token) (pos : Nat)
    (loc loc' : Location) (pos' : Nat)
    (h : parseLocationDirectiveT fuel ts pos loc = .ok (loc', pos'))
    (hg : GoodLocation loc) : GoodLocation loc' := by
  rw [parseLocationDirectiveT.eq_def] at h
  split at h
  any_goals exact Except.noConfusion h
  split at h
  any_goals exact Except.noConfusion h
  split at h
  any_goals exact Except.noConfusion h
  split at h
  any_goals exact Except.noConfusion h
  split at h
  any_goals exact Except.noConfusion h
  rename_i loc1 heq
  injection h with h2
  injection h2 with h3 h4
  subst h3
  exact (applyLocationDirective_good _ loc _ _ _ loc1 heq).1 hg

theorem locationLoopT_good :
    ∀ (fuel : Nat) (ts : List Token) (pos : Nat) (seen : List String)
      (loc loc' : Location) (pos' : Nat),
      locationLoopT fuel ts pos seen loc = .ok (loc', pos') →
      GoodLocation loc → GoodLocation loc'
  | 0, ts, pos, seen, loc, loc', pos', h, hg => by
    rw [locationLoopT] at h
    exact Except.noConfusion h
  | fuel + 1, ts, pos, seen, loc, loc', pos', h, hg => by
    rw [locationLoopT] at h
    split at h
    · injection h with h1
      injection h1 with h2 h3
      subst h2
      exact hg
    · split at h
      any_goals exact Except.noConfusion h
      split at h
      · injection h with h1
        injection h1 with h2 h3
        subst h2
        exact hg
      · split at h
        · dsimp only at h
          split at h
          · exact Except.noConfusion h
          · exact Except.noConfusion h
        · rename_i loc1 pos1 heq
          dsimp only at h
          split at h
          · exact locationLoopT_good fuel ts pos1 _ loc1 loc' pos' h
              (parseLocationDirectiveT_good fuel ts pos loc loc1 pos1 heq hg)
          · exact Except.noConfusion h

theorem parseLocationT_good (fuel : Nat) (ts : List Token) (pos : Nat)
    (loc : Location) (pos' : Nat)
    (h : parseLocationT fuel ts pos = .ok (loc, pos')) : GoodLocation loc := by
  rw [parseLocationT.eq_def] at h
  split at h
  any_goals exact Except.noConfusion h
  split at h
  any_goals exact Except.noConfusion h
  split at h
  any_goals exact Except.noConfusion h
  split at h
  any_goals exact Except.noConfusion h
  rename_i loc1 pos4 heq
  split at h
  any_goals exact Except.noConfusion h
  injection h with h2
  injection h2 with h3 h4
  subst h3
  exact locationLoopT_good fuel ts _ [] _ loc1 pos4 heq (fun m hm => nomatch hm)

theorem parseServerDirectiveT_good (fuel : Nat) (ts : List Token) (pos : Nat)
    (srv srv' : Server) (pos' : Nat)
    (h : parseServerDirectiveT fuel ts pos srv = .ok (srv', pos'))
    (hg : GoodServer srv) : GoodServer srv' := by
  rw [parseServerDirectiveT.eq_def] at h
  split at h
  any_goals exact Except.noConfusion h
  split at h
  any_goals exact Except.noConfusion h
  split at h
  any_goals exact Except.noConfusion h
  split at h
  any_goals exact Except.noConfusion h
  split at h
  any_goals exact Except.noConfusion h
  rename_i srv1 heq
  injection h with h2
  injection h2 with h3 h4
  subst h3
  exact applyServerDirective_good _ srv _ _ _ srv1 heq hg

theorem serverLoopT_good :
    ∀ (fuel : Nat) (ts : List Token) (pos : Nat) (seen : List String)
      (srv srv' : Server) (pos' : Nat),
      serverLoopT fuel ts pos seen srv = .ok (srv', pos') →
      GoodServer srv → GoodServer srv'
  | 0, ts, pos, seen, srv, srv', pos', h, hg => by
    rw [serverLoopT] at h
    exact Except.noConfusion h
  | fuel + 1, ts, pos, seen, srv, srv', pos', h, hg => by
    rw [serverLoopT] at h
    split at h
    · injection h with h1
      injection h1 with h2 h3
      subst h2
      exact hg
    · split at h
      any_goals exact Except.noConfusion h
      split at h
      · injection h with h1
        injection h1 with h2 h3
        subst h2
        exact hg
      · split at h
        · -- location branch
          split at h
          any_goals exact Except.noConfusion h
          rename_i loc pos1 heq
          refine serverLoopT_good fuel ts pos1 seen _ srv' pos' h ?_
          refine ⟨hg.1, hg.2.1, ?_⟩
          intro l hl
          rcases List.mem_append.mp hl with h2 | h2
          · exact hg.2.2 l h2
          · rcases List.mem_singleton.mp h2 with rfl
            exact parseLocationT_good fuel ts pos l pos1 heq
        · -- directive branch
          split at h
          · dsimp only at h
            split at h
            · exact Except.noConfusion h
            · exact Except.noConfusion h
          · rename_i srv1 pos1 heq
            dsimp only at h
            split at h
            · exact serverLoopT_good fuel ts pos1 _ srv1 srv' pos' h
                (parseServerDirectiveT_good fuel ts pos srv srv1 pos1 heq hg)
            · exact Except.noConfusion h

theorem parseServerT_good (fuel : Nat) (ts : List Token) (pos : Nat)
    (srv : Server) (pos' : Nat)
    (h : parseServerT fuel ts pos = .ok (srv, pos')) : GoodServer srv := by
  rw [parseServerT.eq_def] at h
  split at h
  any_goals exact Except.noConfusion h
  split at h
  any_goals exact Except.noConfusion h
  split at h
  any_goals exact Except.noConfusion h
  rename_i srv1 pos3 heq
  split at h
  any_goals exact Except.noConfusion h
  injection h with h2
  injection h2 with h3 h4
  subst h3
  refine serverLoopT_good fuel ts _ [] {} srv1 pos3 heq ?_
  exact ⟨by decide, by decide, fun l hl => nomatch hl⟩

theorem configLoopT_good :
    ∀ (fuel : Nat) (ts : List Token) (pos : Nat) (acc servers : List Server),
      configLoopT fuel ts pos acc = .ok servers →
      (∀ s ∈ acc, GoodServer s) →
      ∀ s ∈ servers, GoodServer s
  | 0, ts, pos, acc, servers, h, hacc => by
    rw [configLoopT] at h
    exact Except.noConfusion h
  | fuel + 1, ts, pos, acc, servers, h, hacc => by
    rw [configLoopT] at h
    split at h
    · injection h with h1
      subst h1
      exact hacc
    · split at h
      any_goals exact Except.noConfusion h
      split at h
      · split at h
        any_goals exact Except.noConfusion h
        rename_i srv pos1 heq
        have hsrv := parseServerT_good fuel ts pos srv pos1 heq
        have hacc2 : ∀ s ∈ acc ++ [srv], GoodServer s := by
          intro s hs
          rcases List.mem_append.mp hs with h2 | h2
          · exact hacc s h2
          · rcases List.mem_singleton.mp h2 with rfl
            exact hsrv
        split at h
        · split at h
          any_goals exact Except.noConfusion h
          split at h
          · exact Except.noConfusion h
          · exact configLoopT_good fuel ts pos1 (acc ++ [srv]) servers h hacc2
        · exact configLoopT_good fuel ts pos1 (acc ++ [srv]) servers h hacc2
      · exact Except.noConfusion h

theorem parseConfigT_good (ts : List Token) (fuel : Nat) (c : Config)
    (h : parseConfigT ts fuel = .ok c) : ∀ s ∈ c.servers, GoodServer s := by
  rw [parseConfigT] at h
  split at h
  · exact Except.noConfusion h
  · split at h
    · exact Except.noConfusion h
    · rename_i servers heq
      injection h with h1
      subst h1
      exact configLoopT_good fuel ts 0 [] servers heq (fun s hs => nomatch hs)

theorem parseConfigFull_good (input : List Char) (c : Config)
    (h : parseConfigFull input = .ok c) : ∀ s ∈ c.servers, GoodServer s := by
  rw [parseConfigFull] at h
  split at h
  · exact Except.noConfusion h
  · split at h
    · exact Except.noConfusion h
    · rename_i cfg heq
      injection h with h1
      subst h1
      exact parseConfigT_good _ _ _ heq

/-- C1: on every successfully parsed configuration, each server's port lies
in [0, 65535] and each location's methods all belong to the closed HTTP
method set; a location's autoindex defaults to false, the autoindex handler
sets it to true exactly for argument `on` and to false exactly for `off`,
and every other location directive leaves it unchanged. -/
theorem C1_parse_invariants :
    (∀ (input : List Char) (c : Config), parseConfigFull input = .ok c →
      ∀ s ∈ c.servers, 0 ≤ s.port ∧ s.port ≤ 65535 ∧
        ∀ l ∈ s.locations, ∀ m ∈ l.methods, m ∈ validMethods) ∧
    (({} : Location).autoindex = false) ∧
    (∀ (loc : Location) (v : List String) (line col : Int) (loc' : Location),
      applyLocationDirective "autoindex" loc v line col = some (.ok loc') →
      (loc'.autoindex = true ↔ v = ["on"]) ∧ (loc'.autoindex = false ↔ v = ["off"])) ∧
    (∀ (name : String) (loc : Location) (v : List String) (line col : Int)
      (loc' : Location), name ≠ "autoindex" →
      applyLocationDirective name loc v line col = some (.ok loc') →
      loc'.autoindex = loc.autoindex) := by
  refine ⟨?_, rfl, ?_, ?_⟩
  · intro input c h s hs
    have hgood := parseConfigFull_good input c h s hs
    exact ⟨hgood.1, hgood.2.1, fun l hl m hm => hgood.2.2 l hl m hm⟩
  · intro loc v line col loc' h
    exact applyLocationDirective_autoindex_char loc v line col loc' h
  · intro name loc v line col loc' hne h
    exact (applyLocationDirective_good name loc v line col loc' h).2 hne

/-- C1 witness: all four conjuncts applied at concrete inputs (a parsed
config with `listen 8080`, `methods GET` and `autoindex on`; the autoindex
handler on `on`; the root handler's preservation of autoindex). -/
theorem C1_parse_invariants_witness :
    (0 ≤ (Server.mk 8080 "0.0.0.0" [] [] 1048576
        [Location.mk lbraceStr ["GET"] "" [] true "" 0 "" []]).port ∧
      (Server.mk 8080 "0.0.0.0" [] [] 1048576
        [Location.mk lbraceStr ["GET"] "" [] true "" 0 "" []]).port ≤ 65535 ∧
      ("GET" : String) ∈ validMethods) ∧
    (({} : Location).autoindex = false) ∧
    ((({ autoindex := true } : Location).autoindex = true ↔
        (["on"] : List String) = ["on"]) ∧
      (({ autoindex := true } : Location).autoindex = false ↔
        (["on"] : List String) = ["off"])) ∧
    (({ root := "/r" } : Location).autoindex = ({} : Location).autoindex) := by
  refine ⟨?_, C1_parse_invariants.2.1, ?_, ?_⟩
  · have h := C1_parse_invariants.1
      "server { listen 8080; location x { methods GET; autoindex on; } }".data
      { servers := [Server.mk 8080 "0.0.0.0" [] [] 1048576
        [Location.mk lbraceStr ["GET"] "" [] true "" 0 "" []]] }
      (by decide)
      (Server.mk 8080 "0.0.0.0" [] [] 1048576
        [Location.mk lbraceStr ["GET"] "" [] true "" 0 "" []])
      (List.mem_singleton.mpr rfl)
    exact ⟨h.1, h.2.1,
      h.2.2 (Location.mk lbraceStr ["GET"] "" [] true "" 0 "" [])
        (List.mem_singleton.mpr rfl) "GET" (by decide)⟩
  · exact C1_parse_invariants.2.2.1 {} ["on"] 1 1 { autoindex := true } (by decide)
  · exact C1_parse_invariants.2.2.2 "root" {} ["/r"] 1 1 { root := "/r" }
      (by decide) (by decide)

/-! ## C10 -- parser cursor safety -/

theorem wf_nonempty {ts : List Token} (h : wfTokens ts) : 1 ≤ ts.length := by
  obtain ⟨front, last, rfl, _, _⟩ := h
  simp

theorem currentT_ok {ts : List Token} {pos : Nat} (h : pos + 1 ≤ ts.length) :
    ∃ t, currentT ts pos = .ok t ∧ ts.get? pos = some t := by
  rw [currentT]
  rcases hg : ts.get? pos with _ | t
  · rw [List.get?_eq_none] at hg
    omega
  · exact ⟨t, rfl, rfl⟩

theorem notEnd_lt {ts : List Token} {pos : Nat} (hwf : wfTokens ts)
    (h : pos + 1 ≤ ts.length) (hend : isAtEndT ts pos = false) :
    pos + 2 ≤ ts.length := by
  obtain ⟨front, last, rfl, hlast, hfront⟩ := hwf
  by_cases hlt : pos + 1 < (front ++ [last]).length
  · omega
  · have hlen : pos = front.length := by
      simp only [List.length_append, List.length_cons, List.length_nil] at h hlt ⊢
      omega
    subst hlen
    rw [isAtEndT, List.get?_concat_length] at hend
    simp [hlast] at hend

theorem expectT_safe {ts : List Token} {pos : Nat} (hwf : wfTokens ts)
    (h : pos + 1 ≤ ts.length) (expected : TokenType) (ctx : String) :
    expectT ts pos expected ctx ≠ .error .bug ∧
      ∀ pos', expectT ts pos expected ctx = .ok pos' → pos' + 1 ≤ ts.length := by
  rw [expectT]
  by_cases hend : isAtEndT ts pos = true
  · rw [if_pos hend]
    rcases hg : ts.getLast? with _ | actual
    · rw [List.getLast?_eq_none_iff] at hg
      have := wf_nonempty hwf
      subst hg
      simp at this
    · exact ⟨fun heq => PError.noConfusion (Except.error.inj heq),
        fun pos' h' => Except.noConfusion h'⟩
  · rw [if_neg hend]
    obtain ⟨t, _, hg⟩ := currentT_ok h
    rw [hg]
    dsimp only
    have hb2 := notEnd_lt hwf h (Bool.not_eq_true _ ▸ hend)
    by_cases hty : t.type = expected
    · rw [if_pos hty]
      exact ⟨fun heq => Except.noConfusion heq,
        fun pos' h' => by injection h' with h1; omega⟩
    · rw [if_neg hty]
      exact ⟨fun heq => PError.noConfusion (Except.error.inj heq),
        fun pos' h' => Except.noConfusion h'⟩

theorem advanceT_safe {ts : List Token} {pos : Nat} (hwf : wfTokens ts)
    (h : pos + 1 ≤ ts.length) :
    ∃ t pos1, advanceT ts pos = .ok (t, pos1) ∧ pos1 + 1 ≤ ts.length ∧
      (isAtEndT ts pos = true → pos1 = pos) := by
  rw [advanceT]
  by_cases hend : isAtEndT ts pos = true
  · rw [if_pos hend]
    obtain ⟨t, hc, _⟩ := currentT_ok h
    rw [hc]
    dsimp only
    exact ⟨t, pos, rfl, h, fun _ => rfl⟩
  · rw [if_neg hend]
    have hb2 := notEnd_lt hwf h (Bool.not_eq_true _ ▸ hend)
    obtain ⟨t, hc, _⟩ := currentT_ok (by omega : pos + 1 + 1 ≤ ts.length)
    rw [hc]
    dsimp only
    exact ⟨t, pos + 1, rfl, by omega, fun he => absurd he hend⟩

theorem matchT_pos {ts : List Token} {pos : Nat} (hwf : wfTokens ts)
    (h : pos + 1 ≤ ts.length) (ty : TokenType) :
    (matchT ts pos ty).2 + 1 ≤ ts.length ∧
      (isAtEndT ts pos = true → (matchT ts pos ty).2 = pos) := by
  rw [matchT]
  by_cases hend : isAtEndT ts pos = true
  · rw [if_pos hend]
    exact ⟨h, fun _ => rfl⟩
  · rw [if_neg hend]
    have hb2 := notEnd_lt hwf h (Bool.not_eq_true _ ▸ hend)
    obtain ⟨t, _, hg⟩ := currentT_ok h
    rw [hg]
    dsimp only
    by_cases hty : t.type = ty
    · rw [if_pos hty]
      exact ⟨by omega, fun he => absurd he hend⟩
    · rw [if_neg hty]
      exact ⟨h, fun _ => rfl⟩

theorem expectOneOfT_safe {ts : List Token} {pos : Nat} (hwf : wfTokens ts)
    (h : pos + 1 ≤ ts.length) (types : List TokenType) (ctx : String) :
    expectOneOfT ts pos types ctx ≠ .error .bug ∧
      ∀ t pos', expectOneOfT ts pos types ctx = .ok (t, pos') →
        pos' + 1 ≤ ts.length := by
  rw [expectOneOfT]
  obtain ⟨t, hc, _⟩ := currentT_ok h
  rw [hc]
  dsimp only
  by_cases hty : t.type ∈ types
  · rw [if_pos hty]
    obtain ⟨t2, pos1, ha, hb, _⟩ := advanceT_safe hwf h
    rw [ha]
    exact ⟨fun heq => Except.noConfusion heq,
      fun t' pos' h' => by
        injection h' with h1
        injection h1 with h2 h3
        omega⟩
  · rw [if_neg hty]
    exact ⟨fun heq => PError.noConfusion (Except.error.inj heq),
      fun t' pos' h' => Except.noConfusion h'⟩

theorem collectArgsT_safe :
    ∀ (fuel : Nat) (ts : List Token) (pos : Nat) (acc : List String),
      wfTokens ts → pos + 1 ≤ ts.length →
      collectArgsT fuel ts pos acc ≠ .error .bug ∧
        ∀ args pos', collectArgsT fuel ts pos acc = .ok (args, pos') →
          pos' + 1 ≤ ts.length
  | 0, ts, pos, acc, hwf, h => by
    rw [collectArgsT]
    exact ⟨fun heq => PError.noConfusion (Except.error.inj heq),
      fun args pos' h' => Except.noConfusion h'⟩
  | fuel + 1, ts, pos, acc, hwf, h => by
    rw [collectArgsT]
    by_cases hend : isAtEndT ts pos = true
    · rw [if_pos hend]
      exact ⟨fun heq => Except.noConfusion heq,
        fun args pos' h' => by
          injection h' with h1
          injection h1 with h2 h3
          omega⟩
    · rw [if_neg hend]
      obtain ⟨t, _, hg⟩ := currentT_ok h
      rw [hg]
      dsimp only
      by_cases hty : (t.type = TokenType.STRING || t.type = TokenType.NUMBER ||
          t.type = TokenType.IDENTIFIER) = true
      · rw [if_pos hty]
        obtain ⟨t2, pos1, ha, hb, _⟩ := advanceT_safe hwf h
        rw [ha]
        dsimp only
        exact collectArgsT_safe fuel ts pos1 (acc ++ [t.value]) hwf hb
      · rw [if_neg hty]
        exact ⟨fun heq => Except.noConfusion heq,
          fun args pos' h' => by
            injection h' with h1
            injection h1 with h2 h3
            omega⟩

theorem wrapHandlerExc_ne_bug (line col : Int) (exc : HandlerExc) :
    wrapHandlerExc line col exc ≠ .bug := by
  rw [wrapHandlerExc.eq_def]
  split
  · exact fun h => PError.noConfusion h
  · exact fun h => PError.noConfusion h
  · exact fun h => PError.noConfusion h

theorem parseServerDirectiveT_safe (fuel : Nat) (ts : List Token) (pos : Nat)
    (srv : Server) (hwf : wfTokens ts) (h : pos + 1 ≤ ts.length) :
    parseServerDirectiveT fuel ts pos srv ≠ .error .bug ∧
      ∀ srv' pos', parseServerDirectiveT fuel ts pos srv = .ok (srv', pos') →
        pos' + 1 ≤ ts.length := by
  rw [parseServerDirectiveT.eq_def]
  obtain ⟨key, hc, _⟩ := currentT_ok h
  rw [hc]
  dsimp only
  obtain ⟨t1, pos1, ha, hb1, _⟩ := advanceT_safe hwf h
  rw [ha]
  dsimp only
  rcases hca : collectArgsT fuel ts pos1 [] with e | ⟨values, pos2⟩
  · dsimp only
    refine ⟨?_, fun srv' pos' h' => Except.noConfusion h'⟩
    intro heq
    injection heq with h1
    subst h1
    exact (collectArgsT_safe fuel ts pos1 [] hwf hb1).1 hca
  · dsimp only
    have hb2 := (collectArgsT_safe fuel ts pos1 [] hwf hb1).2 values pos2 hca
    rcases hex : expectT ts pos2 .SEMICOLON "semicolon after server directive" with e | pos3
    · dsimp only
      refine ⟨?_, fun srv' pos' h' => Except.noConfusion h'⟩
      intro heq
      injection heq with h1
      subst h1
      exact (expectT_safe hwf hb2 .SEMICOLON "semicolon after server directive").1 hex
    · dsimp only
      have hb3 := (expectT_safe hwf hb2 .SEMICOLON
        "semicolon after server directive").2 pos3 hex
      rcases happ : applyServerDirective (strLower key.value) srv values
          key.line key.column with _ | exc2
      · dsimp only
        exact ⟨fun heq => PError.noConfusion (Except.error.inj heq),
          fun srv' pos' h' => Except.noConfusion h'⟩
      · rcases exc2 with exc | srv1
        · dsimp only
          refine ⟨?_, fun srv' pos' h' => Except.noConfusion h'⟩
          intro heq
          injection heq with h1
          exact wrapHandlerExc_ne_bug key.line key.column exc h1
        · dsimp only
          exact ⟨fun heq => Except.noConfusion heq,
            fun srv' pos' h' => by
              injection h' with h1
              injection h1 with h2 h3
              omega⟩

theorem parseLocationDirectiveT_safe (fuel : Nat) (ts : List Token) (pos : Nat)
    (loc : Location) (hwf : wfTokens ts) (h : pos + 1 ≤ ts.length) :
    parseLocationDirectiveT fuel ts pos loc ≠ .error .bug ∧
      ∀ loc' pos', parseLocationDirectiveT fuel ts pos loc = .ok (loc', pos') →
        pos' + 1 ≤ ts.length := by
  rw [parseLocationDirectiveT.eq_def]
  obtain ⟨key, hc, _⟩ := currentT_ok h
  rw [hc]
  dsimp only
  obtain ⟨t1, pos1, ha, hb1, _⟩ := advanceT_safe hwf h
  rw [ha]
  dsimp only
  rcases hca : collectArgsT fuel ts pos1 [] with e | ⟨values, pos2⟩
  · dsimp only
    refine ⟨?_, fun loc' pos' h' => Except.noConfusion h'⟩
    intro heq
    injection heq with h1
    subst h1
    exact (collectArgsT_safe fuel ts pos1 [] hwf hb1).1 hca
  · dsimp only
    have hb2 := (collectArgsT_safe fuel ts pos1 [] hwf hb1).2 values pos2 hca
    rcases hex : expectT ts pos2 .SEMICOLON "semicolon after location directive" with e | pos3
    · dsimp only
      refine ⟨?_, fun loc' pos' h' => Except.noConfusion h'⟩
      intro heq
      injection heq with h1
      subst h1
      exact (expectT_safe hwf hb2 .SEMICOLON "semicolon after location directive").1 hex
    · dsimp only
      have hb3 := (expectT_safe hwf hb2 .SEMICOLON
        "semicolon after location directive").2 pos3 hex
      rcases happ : applyLocationDirective (strLower key.value) loc values
          key.line key.column with _ | exc2
      · dsimp only
        exact ⟨fun heq => PError.noConfusion (Except.error.inj heq),
          fun loc' pos' h' => Except.noConfusion h'⟩
      · rcases exc2 with exc | loc1
        · dsimp only
          refine ⟨?_, fun loc' pos' h' => Except.noConfusion h'⟩
          intro heq
          injection heq with h1
          exact wrapHandlerExc_ne_bug key.line key.column exc h1
        · dsimp only
          exact ⟨fun heq => Except.noConfusion heq,
            fun loc' pos' h' => by
              injection h' with h1
              injection h1 with h2 h3
              omega⟩

theorem locationLoopT_safe :
    ∀ (fuel : Nat) (ts : List Token) (pos : Nat) (seen : List String) (loc : Location),
      wfTokens ts → pos + 1 ≤ ts.length →
      locationLoopT fuel ts pos seen loc ≠ .error .bug ∧
        ∀ loc' pos', locationLoopT fuel ts pos seen loc = .ok (loc', pos') →
          pos' + 1 ≤ ts.length
  | 0, ts, pos, seen, loc, hwf, h => by
    rw [locationLoopT]
    exact ⟨fun heq => PError.noConfusion (Except.error.inj heq),
      fun loc' pos' h' => Except.noConfusion h'⟩
  | fuel + 1, ts, pos, seen, loc, hwf, h => by
    rw [locationLoopT]
    by_cases hend : isAtEndT ts pos = true
    · rw [if_pos hend]
      exact ⟨fun heq => Except.noConfusion heq,
        fun loc' pos' h' => by
          injection h' with h1
          injection h1 with h2 h3
          omega⟩
    · rw [if_neg hend]
      obtain ⟨t, _, hg⟩ := currentT_ok h
      rw [hg]
      dsimp only
      by_cases hrb : t.type = TokenType.RBRACE
      · rw [if_pos hrb]
        exact ⟨fun heq => Except.noConfusion heq,
          fun loc' pos' h' => by
            injection h' with h1
            injection h1 with h2 h3
            omega⟩
      · rw [if_neg hrb]
        by_cases hchk : (checkDuplicateDirective (strLower t.value) seen
            repeatableLocation).1 = true
        · rw [if_pos hchk]
          rcases hpd : parseLocationDirectiveT fuel ts pos loc with e | ⟨loc1, pos1⟩
          · dsimp only
            refine ⟨?_, fun loc' pos' h' => Except.noConfusion h'⟩
            intro heq
            injection heq with h1
            subst h1
            exact (parseLocationDirectiveT_safe fuel ts pos loc hwf h).1 hpd
          · dsimp only
            have hb1 := (parseLocationDirectiveT_safe fuel ts pos loc hwf h).2
              loc1 pos1 hpd
            exact locationLoopT_safe fuel ts pos1 _ loc1 hwf hb1
        · rw [if_neg hchk]
          exact ⟨fun heq => PError.noConfusion (Except.error.inj heq),
            fun loc' pos' h' => Except.noConfusion h'⟩

theorem parseLocationT_safe (fuel : Nat) (ts : List Token) (pos : Nat)
    (hwf : wfTokens ts) (h : pos + 1 ≤ ts.length) :
    parseLocationT fuel ts pos ≠ .error .bug ∧
      ∀ loc pos', parseLocationT fuel ts pos = .ok (loc, pos') →
        pos' + 1 ≤ ts.length := by
  rw [parseLocationT.eq_def]
  rcases he1 : expectT ts pos .KEYWORD_LOCATION "location block" with e | pos1
  · dsimp only
    refine ⟨?_, fun loc pos' h' => Except.noConfusion h'⟩
    intro heq
    injection heq with h1
    subst h1
    exact (expectT_safe hwf h .KEYWORD_LOCATION "location block").1 he1
  · dsimp only
    have hb1 := (expectT_safe hwf h .KEYWORD_LOCATION "location block").2 pos1 he1
    rcases he2 : expectOneOfT ts pos1 [.STRING, .IDENTIFIER] "location path" with
      e | ⟨pathTok, pos2⟩
    · dsimp only
      refine ⟨?_, fun loc pos' h' => Except.noConfusion h'⟩
      intro heq
      injection heq with h1
      subst h1
      exact (expectOneOfT_safe hwf hb1 [.STRING, .IDENTIFIER] "location path").1 he2
    · dsimp only
      have hb2 := (expectOneOfT_safe hwf hb1 [.STRING, .IDENTIFIER]
        "location path").2 pathTok pos2 he2
      rcases he3 : expectT ts pos2 .LBRACE "start of location block" with e | pos3
      · dsimp only
        refine ⟨?_, fun loc pos' h' => Except.noConfusion h'⟩
        intro heq
        injection heq with h1
        subst h1
        exact (expectT_safe hwf hb2 .LBRACE "start of location block").1 he3
      · dsimp only
        have hb3 := (expectT_safe hwf hb2 .LBRACE "start of location block").2 pos3 he3
        rcases hl : locationLoopT fuel ts pos3 [] { path := pathTok.value } with
          e | ⟨loc1, pos4⟩
        · dsimp only
          refine ⟨?_, fun loc pos' h' => Except.noConfusion h'⟩
          intro heq
          injection heq with h1
          subst h1
          exact (locationLoopT_safe fuel ts pos3 [] { path := pathTok.value } hwf hb3).1 hl
        · dsimp only
          have hb4 := (locationLoopT_safe fuel ts pos3 [] { path := pathTok.value }
            hwf hb3).2 loc1 pos4 hl
          rcases he4 : expectT ts pos4 .RBRACE "end of location block" with e | pos5
          · dsimp only
            refine ⟨?_, fun loc pos' h' => Except.noConfusion h'⟩
            intro heq
            injection heq with h1
            subst h1
            exact (expectT_safe hwf hb4 .RBRACE "end of location block").1 he4
          · dsimp only
            have hb5 := (expectT_safe hwf hb4 .RBRACE "end of location block").2 pos5 he4
            exact ⟨fun heq => Except.noConfusion heq,
              fun loc pos' h' => by
                injection h' with h1
                injection h1 with h2 h3
                omega⟩

theorem serverLoopT_safe :
    ∀ (fuel : Nat) (ts : List Token) (pos : Nat) (seen : List String) (srv : Server),
      wfTokens ts → pos + 1 ≤ ts.length →
      serverLoopT fuel ts pos seen srv ≠ .error .bug ∧
        ∀ srv' pos', serverLoopT fuel ts pos seen srv = .ok (srv', pos') →
          pos' + 1 ≤ ts.length
  | 0, ts, pos, seen, srv, hwf, h => by
    rw [serverLoopT]
    exact ⟨fun heq => PError.noConfusion (Except.error.inj heq),
      fun srv' pos' h' => Except.noConfusion h'⟩
  | fuel + 1, ts, pos, seen, srv, hwf, h => by
    rw [serverLoopT]
    by_cases hend : isAtEndT ts pos = true
    · rw [if_pos hend]
      exact ⟨fun heq => Except.noConfusion heq,
        fun srv' pos' h' => by
          injection h' with h1
          injection h1 with h2 h3
          omega⟩
    · rw [if_neg hend]
      obtain ⟨t, _, hg⟩ := currentT_ok h
      rw [hg]
      dsimp only
      by_cases hrb : t.type = TokenType.RBRACE
      · rw [if_pos hrb]
        exact ⟨fun heq => Except.noConfusion heq,
          fun srv' pos' h' => by
            injection h' with h1
            injection h1 with h2 h3
            omega⟩
      · rw [if_neg hrb]
        by_cases hloc : t.type = TokenType.KEYWORD_LOCATION
        · rw [if_pos hloc]
          rcases hpl : parseLocationT fuel ts pos with e | ⟨loc, pos1⟩
          · dsimp only
            refine ⟨?_, fun srv' pos' h' => Except.noConfusion h'⟩
            intro heq
            injection heq with h1
            subst h1
            exact (parseLocationT_safe fuel ts pos hwf h).1 hpl
          · dsimp only
            have hb1 := (parseLocationT_safe fuel ts pos hwf h).2 loc pos1 hpl
            exact serverLoopT_safe fuel ts pos1 seen _ hwf hb1
        · rw [if_neg hloc]
          by_cases hchk : (checkDuplicateDirective (strLower t.value) seen
              repeatableServer).1 = true
          · rw [if_pos hchk]
            rcases hpd : parseServerDirectiveT fuel ts pos srv with e | ⟨srv1, pos1⟩
            · dsimp only
              refine ⟨?_, fun srv' pos' h' => Except.noConfusion h'⟩
              intro heq
              injection heq with h1
              subst h1
              exact (parseServerDirectiveT_safe fuel ts pos srv hwf h).1 hpd
            · dsimp only
              have hb1 := (parseServerDirectiveT_safe fuel ts pos srv hwf h).2
                srv1 pos1 hpd
              exact serverLoopT_safe fuel ts pos1 _ srv1 hwf hb1
          · rw [if_neg hchk]
            exact ⟨fun heq => PError.noConfusion (Except.error.inj heq),
              fun srv' pos' h' => Except.noConfusion h'⟩

theorem parseServerT_safe (fuel : Nat) (ts : List Token) (pos : Nat)
    (hwf : wfTokens ts) (h : pos + 1 ≤ ts.length) :
    parseServerT fuel ts pos ≠ .error .bug ∧
      ∀ srv pos', parseServerT fuel ts pos = .ok (srv, pos') →
        pos' + 1 ≤ ts.length := by
  rw [parseServerT.eq_def]
  rcases he1 : expectT ts pos .KEYWORD_SERVER "server block" with e | pos1
  · dsimp only
    refine ⟨?_, fun srv pos' h' => Except.noConfusion h'⟩
    intro heq
    injection heq with h1
    subst h1
    exact (expectT_safe hwf h .KEYWORD_SERVER "server block").1 he1
  · dsimp only
    have hb1 := (expectT_safe hwf h .KEYWORD_SERVER "server block").2 pos1 he1
    rcases he2 : expectT ts pos1 .LBRACE "start of server block" with e | pos2
    · dsimp only
      refine ⟨?_, fun srv pos' h' => Except.noConfusion h'⟩
      intro heq
      injection heq with h1
      subst h1
      exact (expectT_safe hwf hb1 .LBRACE "start of server block").1 he2
    · dsimp only
      have hb2 := (expectT_safe hwf hb1 .LBRACE "start of server block").2 pos2 he2
      rcases hl : serverLoopT fuel ts pos2 [] {} with e | ⟨srv1, pos3⟩
      · dsimp only
        refine ⟨?_, fun srv pos' h' => Except.noConfusion h'⟩
        intro heq
        injection heq with h1
        subst h1
        exact (serverLoopT_safe fuel ts pos2 [] {} hwf hb2).1 hl
      · dsimp only
        have hb3 := (serverLoopT_safe fuel ts pos2 [] {} hwf hb2).2 srv1 pos3 hl
        rcases he3 : expectT ts pos3 .RBRACE "end of server block" with e | pos4
        · dsimp only
          refine ⟨?_, fun srv pos' h' => Except.noConfusion h'⟩
          intro heq
          injection heq with h1
          subst h1
          exact (expectT_safe hwf hb3 .RBRACE "end of server block").1 he3
        · dsimp only
          have hb4 := (expectT_safe hwf hb3 .RBRACE "end of server block").2 pos4 he3
          exact ⟨fun heq => Except.noConfusion heq,
            fun srv pos' h' => by
              injection h' with h1
              injection h1 with h2 h3
              omega⟩

theorem configLoopT_safe :
    ∀ (fuel : Nat) (ts : List Token) (pos : Nat) (acc : List Server),
      wfTokens ts → pos + 1 ≤ ts.length →
      configLoopT fuel ts pos acc ≠ .error .bug
  | 0, ts, pos, acc, hwf, h => by
    rw [configLoopT]
    exact fun heq => PError.noConfusion (Except.error.inj heq)
  | fuel + 1, ts, pos, acc, hwf, h => by
    rw [configLoopT]
    by_cases hend : isAtEndT ts pos = true
    · rw [if_pos hend]
      exact fun heq => Except.noConfusion heq
    · rw [if_neg hend]
      obtain ⟨t, hc, _⟩ := currentT_ok h
      rw [hc]
      dsimp only
      by_cases hsrv : t.type = TokenType.KEYWORD_SERVER
      · rw [if_pos hsrv]
        rcases hps : parseServerT fuel ts pos with e | ⟨srv, pos1⟩
        · dsimp only
          intro heq
          injection heq with h1
          subst h1
          exact (parseServerT_safe fuel ts pos hwf h).1 hps
        · dsimp only
          have hb1 := (parseServerT_safe fuel ts pos hwf h).2 srv pos1 hps
          by_cases hend1 : isAtEndT ts pos1 = true
          · rw [if_neg (by rw [hend1]; exact fun hne => hne rfl)]
            exact configLoopT_safe fuel ts pos1 (acc ++ [srv]) hwf hb1
          · rw [if_pos (Bool.not_eq_true _ ▸ hend1)]
            obtain ⟨t2, hc2, _⟩ := currentT_ok hb1
            rw [hc2]
            dsimp only
            by_cases hty2 : t2.type ≠ TokenType.KEYWORD_SERVER ∧
                t2.type ≠ TokenType.END_OF_FILE
            · rw [if_pos hty2]
              exact fun heq => PError.noConfusion (Except.error.inj heq)
            · rw [if_neg hty2]
              exact configLoopT_safe fuel ts pos1 (acc ++ [srv]) hwf hb1
      · rw [if_neg hsrv]
        exact fun heq => PError.noConfusion (Except.error.inj heq)

theorem parseConfigT_safe (ts : List Token) (fuel : Nat) (hwf : wfTokens ts) :
    parseConfigT ts fuel ≠ .error .bug := by
  rw [parseConfigT]
  by_cases hend : isAtEndT ts 0 = true
  · rw [if_pos hend]
    exact fun heq => PError.noConfusion (Except.error.inj heq)
  · rw [if_neg hend]
    rcases hcl : configLoopT fuel ts 0 [] with e | servers
    · dsimp only
      intro heq
      injection heq with h1
      subst h1
      exact configLoopT_safe fuel ts 0 [] hwf (wf_nonempty hwf) hcl
    · dsimp only
      exact fun heq => Except.noConfusion heq

theorem resolveKeywordType_ne_eof (w : String) :
    resolveKeywordType w ≠ .END_OF_FILE := by
  rw [resolveKeywordType.eq_def]
  split
  all_goals decide

theorem parseIdentifierOrKeyword_type (l : List Char) (line col pos : Nat) (t : Token)
    (rest : List Char) (l2 c2 p2 : Nat)
    (h : parseIdentifierOrKeyword l line col pos = .ok (t, rest, l2, c2, p2)) :
    ∃ w, t.type = resolveKeywordType w := by
  rcases hs : scanWhile isIdentifierChar l line col pos with ⟨word, rest1, l1, c1, p1⟩
  rw [parseIdentifierOrKeyword, hs] at h
  dsimp only at h
  split at h
  · exact Except.noConfusion h
  · injection h with h1
    injection h1 with ht _
    subst ht
    exact ⟨String.mk word, rfl⟩

theorem parseNumberOrUnit_type (l : List Char) (line col pos : Nat) (t : Token)
    (rest : List Char) (l2 c2 p2 : Nat)
    (h : parseNumberOrUnit l line col pos = .ok (t, rest, l2, c2, p2)) :
    t.type = .NUMBER := by
  rcases hs : scanWhile isDigitC l line col pos with ⟨ds, rest1, l1, c1, p1⟩
  rw [parseNumberOrUnit, hs] at h
  dsimp only at h
  split at h
  · exact Except.noConfusion h
  · injection h with h1
    injection h1 with ht _
    subst ht
    rfl

theorem dispatchToken_ne_eof (l : List Char) (line col pos : Nat) (t : Token)
    (rest : List Char) (l2 c2 p2 : Nat)
    (h : dispatchToken l line col pos = .ok (t, rest, l2, c2, p2)) :
    t.type ≠ .END_OF_FILE := by
  cases l with
  | nil =>
    rw [dispatchToken.eq_def] at h
    exact Except.noConfusion h
  | cons c rest' =>
    rw [dispatchToken.eq_def] at h
    dsimp only at h
    by_cases hd : isDigitC c = true
    · rw [if_pos hd] at h
      split at h
      · obtain ⟨w, hw⟩ := parseIdentifierOrKeyword_type _ _ _ _ _ _ _ _ _ h
        rw [hw]
        exact resolveKeywordType_ne_eof w
      · rw [parseNumberOrUnit_type _ _ _ _ _ _ _ _ _ h]
        exact fun hh => TokenType.noConfusion hh
    · rw [if_neg hd] at h
      by_cases hi : isIdentifierStart c = true
      · rw [if_pos hi] at h
        obtain ⟨w, hw⟩ := parseIdentifierOrKeyword_type _ _ _ _ _ _ _ _ _ h
        rw [hw]
        exact resolveKeywordType_ne_eof w
      · rw [if_neg hi] at h
        by_cases hq : (c = '"' || c = '\'') = true
        · rw [if_pos hq] at h
          have hty : t.type = TokenType.STRING := by
            refine stringLitLoop_ok_type c rest'.length rest' [] line (col + 1) (pos + 1)
              t rest l2 c2 p2 le_rfl ?_ h
            rcases Bool.or_eq_true _ _ |>.mp hq with h1 | h1
            · exact Or.inl (decide_eq_true_eq.mp h1)
            · exact Or.inr (decide_eq_true_eq.mp h1)
          rw [hty]
          exact fun hh => TokenType.noConfusion hh
        · rw [if_neg hq] at h
          by_cases hb1 : c = Char.ofNat 123
          · rw [if_pos hb1] at h
            injection h with h1
            injection h1 with ht _
            subst ht
            exact fun hh => TokenType.noConfusion hh
          · rw [if_neg hb1] at h
            by_cases hb2 : c = Char.ofNat 125
            · rw [if_pos hb2] at h
              injection h with h1
              injection h1 with ht _
              subst ht
              exact fun hh => TokenType.noConfusion hh
            · rw [if_neg hb2] at h
              by_cases hb3 : c = ';'
              · rw [if_pos hb3] at h
                injection h with h1
                injection h1 with ht _
                subst ht
                exact fun hh => TokenType.noConfusion hh
              · rw [if_neg hb3] at h
                exact Except.noConfusion h

theorem tokenizeLoop_no_eof :
    ∀ (fuel : Nat) (l : List Char) (line col pos : Nat) (acc : List Token)
      (toks : List Token) (l2 c2 p2 : Nat),
      tokenizeLoop fuel l line col pos acc = .ok (toks, l2, c2, p2) →
      (∀ t ∈ acc, t.type ≠ .END_OF_FILE) →
      ∀ t ∈ toks, t.type ≠ .END_OF_FILE
  | 0, l, line, col, pos, acc, toks, l2, c2, p2, h, hacc => by
    rw [tokenizeLoop] at h
    exact Except.noConfusion h
  | fuel + 1, l, line, col, pos, acc, toks, l2, c2, p2, h, hacc => by
    cases l with
    | nil =>
      rw [tokenizeLoop] at h
      injection h with h1
      injection h1 with h2 h3
      subst h2
      exact hacc
    | cons c rest =>
      rw [tokenizeLoop.eq_def] at h
      dsimp only at h
      split at h
      · exact Except.noConfusion h
      · rename_i l1 line1 col1 pos1 hws
        cases l1 with
        | nil =>
          dsimp only at h
          injection h with h1
          injection h1 with h2 h3
          subst h2
          exact hacc
        | cons d rest1 =>
          dsimp only at h
          split at h
          · exact Except.noConfusion h
          · rename_i tok lr2 line2 col2 pos2 hdp
            refine tokenizeLoop_no_eof fuel lr2 line2 col2 pos2 (acc ++ [tok])
              toks l2 c2 p2 h ?_
            intro t ht
            rcases List.mem_append.mp ht with h2 | h2
            · exact hacc t h2
            · rcases List.mem_singleton.mp h2 with rfl
              exact dispatchToken_ne_eof (d :: rest1) line1 col1 pos1 t lr2
                line2 col2 pos2 hdp

theorem tokenize_wf (input : List Char) (ts : List Token)
    (h : tokenize input = .ok ts) : wfTokens ts := by
  rw [tokenize] at h
  split at h
  · exact Except.noConfusion h
  · rename_i toks line col pos hloop
    injection h with h1
    subst h1
    refine ⟨toks, makeToken .END_OF_FILE "" line col pos, rfl, rfl, ?_⟩
    exact tokenizeLoop_no_eof _ _ 1 1 _ [] toks line col pos hloop
      (fun t ht => nomatch ht)

theorem liftPError_ne_bugE {e : PError} (h : e ≠ .bug) : liftPError e ≠ .bugE := by
  cases e with
  | synE m => exact fun hh => CError.noConfusion hh
  | unexpE m => exact fun hh => CError.noConfusion hh
  | bug => exact absurd rfl h
  | fuelE => exact fun hh => CError.noConfusion hh

/-- C10: every token vector the tokenizer returns is a run of non-EOF
tokens closed by exactly one END_OF_FILE token; on such a vector the
parser's checked accesses never go out of bounds (the `bug` outcome that
models `std::vector::at` throwing is unreachable, for any fuel), so
`parseConfigFull` can never fail with the out-of-range kind; `match` leaves
the cursor unchanged at end of input, and `advance` always succeeds under
the cursor invariant, moving the cursor only when not at end while keeping
it at most on the final END_OF_FILE token. -/
theorem C10_cursor_safety :
    (∀ (input : List Char) (ts : List Token), tokenize input = .ok ts → wfTokens ts) ∧
    (∀ (ts : List Token) (fuel : Nat), wfTokens ts →
      parseConfigT ts fuel ≠ .error .bug) ∧
    (∀ (input : List Char), parseConfigFull input ≠ .error .bugE) ∧
    (∀ (ts : List Token) (pos : Nat) (ty : TokenType), isAtEndT ts pos = true →
      (matchT ts pos ty).2 = pos) ∧
    (∀ (ts : List Token) (pos : Nat), wfTokens ts → pos + 1 ≤ ts.length →
      ∃ t pos1, advanceT ts pos = .ok (t, pos1) ∧ pos1 + 1 ≤ ts.length ∧
        (isAtEndT ts pos = true → pos1 = pos)) := by
  refine ⟨tokenize_wf, fun ts fuel hwf => parseConfigT_safe ts fuel hwf, ?_, ?_, ?_⟩
  · intro input
    rw [parseConfigFull]
    rcases ht : tokenize input with m | ts
    · dsimp only
      exact fun hh => CError.noConfusion (Except.error.inj hh)
    · dsimp only
      rcases hp : parseConfigT ts (ts.length + 1) with e | cfg
      · dsimp only
        intro hh
        injection hh with h1
        refine liftPError_ne_bugE ?_ h1
        intro he
        subst he
        exact parseConfigT_safe ts (ts.length + 1) (tokenize_wf input ts ht) hp
      · dsimp only
        exact fun hh => Except.noConfusion hh
  · intro ts pos ty hend
    rw [matchT, if_pos hend]
  · intro ts pos hwf h
    exact advanceT_safe hwf h

/-- C10 witness: the safety statement applied to the concrete input `a`
(whose token vector is an IDENTIFIER followed by END_OF_FILE) and to
concrete cursor states on that vector. -/
theorem C10_cursor_safety_witness :
    wfTokens [Token.mk .IDENTIFIER "a" 1 1 0, Token.mk .END_OF_FILE "" 1 2 1] ∧
    parseConfigT [Token.mk .IDENTIFIER "a" 1 1 0, Token.mk .END_OF_FILE "" 1 2 1] 5 ≠
      .error .bug ∧
    parseConfigFull "a".data ≠ .error .bugE ∧
    (matchT [Token.mk .END_OF_FILE "" 1 2 1] 0 .SEMICOLON).2 = 0 ∧
    (∃ t pos1,
      advanceT [Token.mk .IDENTIFIER "a" 1 1 0, Token.mk .END_OF_FILE "" 1 2 1] 0 =
        .ok (t, pos1) ∧
      pos1 + 1 ≤ ([Token.mk .IDENTIFIER "a" 1 1 0,
        Token.mk .END_OF_FILE "" 1 2 1] : List Token).length ∧
      (isAtEndT [Token.mk .IDENTIFIER "a" 1 1 0, Token.mk .END_OF_FILE "" 1 2 1] 0 =
        true → pos1 = 0)) :=
  ⟨C10_cursor_safety.1 "a".data _ (by decide),
   C10_cursor_safety.2.1 _ 5
     ⟨[Token.mk .IDENTIFIER "a" 1 1 0], Token.mk .END_OF_FILE "" 1 2 1, rfl, rfl,
       by decide⟩,
   C10_cursor_safety.2.2.1 "a".data,
   C10_cursor_safety.2.2.2.1 [Token.mk .END_OF_FILE "" 1 2 1] 0 .SEMICOLON (by decide),
   C10_cursor_safety.2.2.2.2 [Token.mk .IDENTIFIER "a" 1 1 0,
     Token.mk .END_OF_FILE "" 1 2 1] 0
     ⟨[Token.mk .IDENTIFIER "a" 1 1 0], Token.mk .END_OF_FILE "" 1 2 1, rfl, rfl,
       by decide⟩
     (by decide)⟩

end Webserv
